import Mathlib

attribute [local semireducible] Rat.add Rat.sub Rat.mul

/- Verification development for the H3 hierarchical routing engine.

   Shallow embedding of the CSR routing graph (csr_graph.cpp / csr_graph.hpp),
   its query algorithms, the path expander, and the H3 hierarchy utilities
   (h3_utils.cpp). Conventions:
   - edge ids and H3 cells are Nat (uint32_t / uint64_t in the source);
   - costs and distances are rationals, modelling exact arithmetic on the
     float/double values of the source;
   - the C++ double infinity is modelled by Option (none = infinity);
   - hash maps are modelled as functions Nat -> Option _;
   - std::priority_queue with std::greater is modelled as a list kept sorted
     by ascending key whose head is the top; push inserts stably.  This agrees
     with the source up to the order in which entries with equal keys pop;
   - loops are modelled by fuel recursion; the fuel is large enough that every
     run examined here terminates by the loop's own break conditions first. -/

-- ============================================================
-- H3 UTILITIES (h3_utils.cpp)
-- ============================================================

namespace h3_utils

/-- Modelled from the spec: the H3 library getResolution reads the resolution
from bits 52..55 of the 64-bit cell index (spec: "The cell's resolution is
derivable by extracting bits 52..55").  The library call is not part of this
repository; only this bit extraction is assumed. -/
def resField (cell : Nat) : Nat := cell / 2 ^ 52 % 16

/-- Number of low bits holding the digits finer than resolution res in the H3
bit encoding: 3 bits per level for levels res+1 .. 15. -/
def digitBits (res : Nat) : Nat := 3 * (15 - res)

/-- Modelled from the spec: the H3 library cellToParent truncates a cell to a
coarser resolution by rewriting the resolution field (bits 52..55) and setting
every digit below the target resolution to 7 (all ones), per the H3 bit
encoding the spec refers to.  The library call is not part of this repository;
it is modelled as total, so the wrapper below never takes its error branch. -/
def libCellToParent (cell : Nat) (target_res : Nat) : Nat :=
  cell / 2 ^ 56 * 2 ^ 56 + target_res * 2 ^ 52
    + cell % 2 ^ 52 / 2 ^ digitBits target_res * 2 ^ digitBits target_res
    + (2 ^ digitBits target_res - 1)

/-- get_resolution from h3_utils.cpp: -1 for the 0 sentinel, else the H3
resolution of the cell. -/
def get_resolution (cell : Nat) : Int :=
  if cell = 0 then -1 else (resField cell : Int)

/-- cell_to_parent from h3_utils.cpp: 0 on invalid input, identity when the
target resolution is at or above the current one, else the library parent. -/
def cell_to_parent (cell : Nat) (target_res : Int) : Nat :=
  if cell = 0 ∨ target_res < 0 then 0
  else
    if target_res ≥ (resField cell : Int) then cell
    else libCellToParent cell target_res.toNat

/-- Loop body of find_lca: while (c1 != c2 && min_res > 0) { min_res--;
c1 = cell_to_parent(c1, min_res); c2 = cell_to_parent(c2, min_res); }. -/
def lcaLoop : Nat → Nat → Nat → Nat × Nat
  | c1, c2, 0 => (c1, c2)
  | c1, c2, m + 1 =>
    if c1 = c2 then (c1, c2)
    else lcaLoop (cell_to_parent c1 (m : Int)) (cell_to_parent c2 (m : Int)) m

/-- find_lca from h3_utils.cpp. -/
def find_lca (cell1 cell2 : Nat) : Nat :=
  if cell1 = 0 ∨ cell2 = 0 then 0
  else
    let res1 := resField cell1
    let res2 := resField cell2
    let min_res := if res1 < res2 then res1 else res2
    let c1 := if res1 > min_res then cell_to_parent cell1 (min_res : Int) else cell1
    let c2 := if res2 > min_res then cell_to_parent cell2 (min_res : Int) else cell2
    let p := lcaLoop c1 c2 min_res
    if p.1 = p.2 then p.1 else 0

/-- parent_check from h3_utils.cpp. -/
def parent_check (node_cell high_cell : Nat) (high_res : Int) : Bool :=
  if high_cell = 0 ∨ high_res < 0 then true
  else if node_cell = 0 then false
  else if high_res > (resField node_cell : Int) then false
  else decide (cell_to_parent node_cell high_res = high_cell)

end h3_utils

-- ============================================================
-- DATA MODEL (csr_graph.hpp)
-- ============================================================

/-- CSRShortcut from csr_graph.hpp.  The inside field is the 2-bit signed
bitfield, so it always denotes a value in {-2, -1, 0, 1} after loading. -/
structure CSRShortcut where
  cell : Nat
  cost : ℚ
  from_ : Nat
  to_ : Nat
  via_edge : Nat
  inside : Int
deriving DecidableEq, Inhabited

/-- get_res helper of CSRShortcut: resolution extracted from the cell bits. -/
def CSRShortcut.get_res (sc : CSRShortcut) : Int :=
  if sc.cell = 0 then -1 else ((sc.cell >>> 52) &&& 0xF : Nat)

/-- CSREdgeMeta from csr_graph.hpp (geometry omitted: no claim touches it). -/
structure CSREdgeMeta where
  to_cell : Nat
  from_cell : Nat
  lca_res : Int
  length : ℚ
  cost : ℚ
deriving DecidableEq, Inhabited

/-- CSRQueryResult from csr_graph.hpp. -/
structure CSRQueryResult where
  distance : ℚ
  path : List Nat
  reachable : Bool
  error : String
deriving DecidableEq, Inhabited

/-- CSRHighCell from csr_graph.hpp. -/
structure CSRHighCell where
  cell : Nat
  res : Int
deriving DecidableEq, Inhabited

/-- The CSR routing graph state (csr_graph.hpp private fields). -/
structure CSRGraph where
  shortcuts : List CSRShortcut
  fwd_offsets : List Nat
  bwd_offsets : List Nat
  bwd_indices : List Nat
  max_edge_id : Nat
  edge_meta : Nat → Option CSREdgeMeta

-- ============================================================
-- ACCESSORS AND HELPERS (csr_graph.cpp / csr_graph.hpp)
-- ============================================================

/-- get_edge_cost: cost from edge_meta, 0 when the edge is absent. -/
def CSRGraph.get_edge_cost (g : CSRGraph) (edge_id : Nat) : ℚ :=
  match g.edge_meta edge_id with
  | some m => m.cost
  | none => 0

/-- get_edge_meta accessor. -/
def CSRGraph.get_edge_meta (g : CSRGraph) (edge_id : Nat) : Option CSREdgeMeta :=
  g.edge_meta edge_id

/-- is_valid_edge from csr_graph.hpp. -/
def CSRGraph.is_valid_edge (g : CSRGraph) (edge_id : Nat) : Bool :=
  decide (edge_id ≤ g.max_edge_id) &&
    decide (edge_id + 1 < g.fwd_offsets.length) &&
    decide (edge_id + 1 < g.bwd_offsets.length)

/-- get_fwd_range from csr_graph.hpp. -/
def CSRGraph.get_fwd_range (g : CSRGraph) (edge_id : Nat) : Nat × Nat :=
  if g.is_valid_edge edge_id then
    (g.fwd_offsets.getD edge_id 0, g.fwd_offsets.getD (edge_id + 1) 0)
  else (0, 0)

/-- get_bwd_range from csr_graph.hpp. -/
def CSRGraph.get_bwd_range (g : CSRGraph) (edge_id : Nat) : Nat × Nat :=
  if g.is_valid_edge edge_id then
    (g.bwd_offsets.getD edge_id 0, g.bwd_offsets.getD (edge_id + 1) 0)
  else (0, 0)

/-- compute_high_cell from csr_graph.cpp. -/
def CSRGraph.compute_high_cell (g : CSRGraph) (source_edge target_edge : Nat) : CSRHighCell :=
  match g.edge_meta source_edge, g.edge_meta target_edge with
  | some src, some tgt =>
    if src.to_cell = 0 ∨ tgt.to_cell = 0 then ⟨0, -1⟩
    else
      let lca := h3_utils.find_lca src.to_cell tgt.to_cell
      ⟨lca, if lca ≠ 0 then h3_utils.get_resolution lca else -1⟩
  | _, _ => ⟨0, -1⟩

/-- find_shortcut_index from csr_graph.cpp: first shortcut in the forward
range of u whose to field is v, or -1. -/
def CSRGraph.find_shortcut_index (g : CSRGraph) (u v : Nat) : Int :=
  let r := g.get_fwd_range u
  match (List.range' r.1 (r.2 - r.1)).find? (fun i => (g.shortcuts.getD i default).to_ = v) with
  | some i => (i : Int)
  | none => -1

-- ============================================================
-- PATH EXPANSION (csr_graph.cpp expand_path)
-- ============================================================

/-- Structural-recursion engine of the recursive lambda inside expand_path;
the first argument is 51 - depth + 1, so the fuel pattern never exhausts
before the depth cap fires. -/
def expandGo (g : CSRGraph) : Nat → Nat → Nat → Nat → List Nat
  | 0, u, _, _ => [u]
  | fuel + 1, u, v, depth =>
    if depth > 50 then [u]
    else
      let idx := g.find_shortcut_index u v
      if idx < 0 ∨ (g.shortcuts.length : Int) ≤ idx then [u]
      else
        let via := (g.shortcuts.getD idx.toNat default).via_edge
        if via = u ∨ via = v ∨ via = 0 then [u]
        else expandGo g fuel u via (depth + 1) ++ expandGo g fuel via v (depth + 1)

/-- The recursive lambda inside expand_path.  The original appends to a
result vector; here each call returns the list it would have appended. -/
def CSRGraph.expandAux (g : CSRGraph) (u v : Nat) (depth : Nat) : List Nat :=
  expandGo g (51 - depth + 1) u v depth

/-- expand_path from csr_graph.cpp. -/
def CSRGraph.expand_path (g : CSRGraph) (shortcut_path : List Nat) : List Nat :=
  if shortcut_path.length ≤ 1 then shortcut_path
  else
    ((shortcut_path.zip shortcut_path.tail).map (fun p => g.expandAux p.1 p.2 0)).flatten
      ++ [shortcut_path.getLast!]

-- ============================================================
-- PRIORITY QUEUE AND SCRATCH-MAP MODEL
-- ============================================================

/-- Push into the list-model of std::priority_queue (min-heap by key). -/
def pqPush {α : Type} (pq : List (ℚ × α)) (e : ℚ × α) : List (ℚ × α) :=
  match pq with
  | [] => [e]
  | x :: rest => if e.1 < x.1 then e :: x :: rest else x :: pqPush rest e

/-- Point update of a hash-map model. -/
def updFun {β : Type} (f : Nat → Option β) (k : Nat) (v : β) : Nat → Option β :=
  fun n => if n = k then some v else f n

/-- The comparison d >= best with best possibly infinite. -/
def geBest (d : ℚ) (best : Option ℚ) : Bool :=
  match best with
  | none => false
  | some b => decide (b ≤ d)

/-- The comparison x < best with best possibly infinite. -/
def ltBest (x : ℚ) (best : Option ℚ) : Bool :=
  match best with
  | none => true
  | some b => decide (x < b)

/-- std::min(x, m) where m may be infinite. -/
def optMin (x : ℚ) (m : Option ℚ) : Option ℚ :=
  match m with
  | none => some x
  | some y => some (min x y)

/-- The comparison a + b < c where b may be infinite. -/
def addLt (a : ℚ) (b : Option ℚ) (c : ℚ) : Bool :=
  match b with
  | none => false
  | some b0 => decide (a + b0 < c)

-- ============================================================
-- QUERY: CLASSIC BIDIRECTIONAL DIJKSTRA (csr_graph.cpp query_classic)
-- ============================================================

/-- Per-query scratch state shared by the bidirectional variants without
resolution payloads (query_classic, query_bidijkstra, query_multi). -/
structure BiState where
  dist_fwd : Nat → Option ℚ
  dist_bwd : Nat → Option ℚ
  parent_fwd : Nat → Option Nat
  parent_bwd : Nat → Option Nat
  pq_fwd : List (ℚ × Nat)
  pq_bwd : List (ℚ × Nat)
  best : Option ℚ
  meeting : Nat
  found : Bool

/-- Forward filter of query_classic: if (sc.inside != 1) continue. -/
def classicFwdAllowed (sc : CSRShortcut) : Bool := sc.inside == 1

/-- Backward filter of query_classic: if (sc.inside != -1 && sc.inside != 0)
continue. -/
def classicBwdAllowed (sc : CSRShortcut) : Bool := sc.inside == -1 || sc.inside == 0

/-- Forward relaxation loop of query_classic for popped entry (d, u). -/
def classicRelaxFwd (g : CSRGraph) (d : ℚ) (u : Nat) (st : BiState) : BiState :=
  let r := g.get_fwd_range u
  (List.range' r.1 (r.2 - r.1)).foldl (fun st i =>
    if i < g.shortcuts.length then
      let sc := g.shortcuts.getD i default
      if classicFwdAllowed sc then
        let nd := d + sc.cost
        let improve := match st.dist_fwd sc.to_ with
          | none => true
          | some dv => decide (nd < dv)
        if improve then
          let st1 := { st with
            dist_fwd := updFun st.dist_fwd sc.to_ nd,
            parent_fwd := updFun st.parent_fwd sc.to_ u,
            pq_fwd := pqPush st.pq_fwd (nd, sc.to_) }
          match st1.dist_bwd sc.to_ with
          | some db =>
            if ltBest (nd + db) st1.best then
              { st1 with best := some (nd + db), meeting := sc.to_, found := true }
            else st1
          | none => st1
        else st
      else st
    else st) st

/-- Backward relaxation loop of query_classic for popped entry (d, u). -/
def classicRelaxBwd (g : CSRGraph) (d : ℚ) (u : Nat) (st : BiState) : BiState :=
  let r := g.get_bwd_range u
  (List.range' r.1 (r.2 - r.1)).foldl (fun st k =>
    if k < g.bwd_indices.length then
      let idx := g.bwd_indices.getD k 0
      if idx < g.shortcuts.length then
        let sc := g.shortcuts.getD idx default
        if classicBwdAllowed sc then
          let nd := d + sc.cost
          let improve := match st.dist_bwd sc.from_ with
            | none => true
            | some dv => decide (nd < dv)
          if improve then
            let st1 := { st with
              dist_bwd := updFun st.dist_bwd sc.from_ nd,
              parent_bwd := updFun st.parent_bwd sc.from_ u,
              pq_bwd := pqPush st.pq_bwd (nd, sc.from_) }
            match st1.dist_fwd sc.from_ with
            | some df =>
              if ltBest (df + nd) st1.best then
                { st1 with best := some (df + nd), meeting := sc.from_, found := true }
              else st1
            | none => st1
          else st
        else st
      else st
    else st) st

/-- Forward step block of query_classic.  The Bool result is true when the
C++ continue fired, skipping the rest of the while body. -/
def classicFwdStep (g : CSRGraph) (st : BiState) : BiState × Bool :=
  match st.pq_fwd with
  | [] => (st, false)
  | (d, u) :: rest =>
    let st := { st with pq_fwd := rest }
    let stale := match st.dist_fwd u with
      | some du => decide (du < d)
      | none => false
    if stale then (st, true)
    else if geBest d st.best then (st, true)
    else (classicRelaxFwd g d u st, false)

/-- Backward step block of query_classic, with the same continue signal. -/
def classicBwdStep (g : CSRGraph) (st : BiState) : BiState × Bool :=
  match st.pq_bwd with
  | [] => (st, false)
  | (d, u) :: rest =>
    let st := { st with pq_bwd := rest }
    let stale := match st.dist_bwd u with
      | some du => decide (du < d)
      | none => false
    if stale then (st, true)
    else if geBest d st.best then (st, true)
    else (classicRelaxBwd g d u st, false)

/-- One iteration of the while loop of query_classic.  The Bool result is
true when the loop should run another iteration, false on break. -/
def classicBody (g : CSRGraph) (st : BiState) : BiState × Bool :=
  match classicFwdStep g st with
  | (st, true) => (st, true)
  | (st, false) =>
    match classicBwdStep g st with
    | (st, true) => (st, true)
    | (st, false) =>
      if st.pq_fwd ≠ [] ∧ st.pq_bwd ≠ [] then
        if geBest (st.pq_fwd.headD (0, 0)).1 st.best ∧
           geBest (st.pq_bwd.headD (0, 0)).1 st.best then (st, false)
        else (st, true)
      else if st.pq_fwd = [] ∧ st.pq_bwd = [] then (st, false)
      else (st, true)

/-- The while loop of query_classic (fuel-bounded). -/
def classicLoop (g : CSRGraph) : Nat → BiState → BiState
  | 0, st => st
  | fuel + 1, st =>
    if st.pq_fwd = [] ∧ st.pq_bwd = [] then st
    else
      match classicBody g st with
      | (st2, false) => st2
      | (st2, true) => classicLoop g fuel st2

/-- Fuel used by all query loops; large enough that every run considered in
this development stops through its own break conditions first. -/
def queryFuel : Nat := 1000000

/-- Initial scratch state of query_classic: forward seeded at the source with
key 0, backward seeded at the target with key edge_cost(target). -/
def classicInit (g : CSRGraph) (source_edge target_edge : Nat) : BiState :=
  let target_cost := g.get_edge_cost target_edge
  { dist_fwd := updFun (fun _ => none) source_edge 0,
    dist_bwd := updFun (fun _ => none) target_edge target_cost,
    parent_fwd := updFun (fun _ => none) source_edge source_edge,
    parent_bwd := updFun (fun _ => none) target_edge target_edge,
    pq_fwd := [(0, source_edge)],
    pq_bwd := [(target_cost, target_edge)],
    best := none, meeting := 0, found := false }

/-- Forward half of the path reconstruction: follow parent_fwd from the
meeting vertex until a missing or self-parent entry. -/
def traceParent (parent : Nat → Option Nat) : Nat → Nat → List Nat
  | 0, curr => [curr]
  | fuel + 1, curr =>
    curr :: match parent curr with
      | none => []
      | some p => if p = curr then [] else traceParent parent fuel p

/-- Backward half of the path reconstruction: vertices strictly after the
meeting vertex along parent_bwd. -/
def traceParentAfter (parent : Nat → Option Nat) : Nat → Nat → List Nat
  | 0, _ => []
  | fuel + 1, curr =>
    match parent curr with
    | none => []
    | some p => if p = curr then [] else p :: traceParentAfter parent fuel p

/-- Shared result assembly of query_classic / query_multi. -/
def classicResult (st : BiState) : CSRQueryResult :=
  if !st.found then ⟨-1, [], false, "No path found"⟩
  else
    let fwd_part := (traceParent st.parent_fwd queryFuel st.meeting).reverse
    let bwd_part := traceParentAfter st.parent_bwd queryFuel st.meeting
    ⟨st.best.getD (-1), fwd_part ++ bwd_part, true, ""⟩

/-- query_classic from csr_graph.cpp. -/
def CSRGraph.query_classic (g : CSRGraph) (source_edge target_edge : Nat) : CSRQueryResult :=
  if source_edge = target_edge then
    ⟨g.get_edge_cost source_edge, [source_edge], true, ""⟩
  else if (g.edge_meta source_edge).isNone then ⟨-1, [], false, "Source edge not found"⟩
  else if (g.edge_meta target_edge).isNone then ⟨-1, [], false, "Target edge not found"⟩
  else classicResult (classicLoop g queryFuel (classicInit g source_edge target_edge))

-- ============================================================
-- QUERY: FULL BIDIRECTIONAL DIJKSTRA (csr_graph.cpp query_bidijkstra)
-- ============================================================

/-- Forward relaxation of query_bidijkstra: no inside filter. -/
def bidijkstraRelaxFwd (g : CSRGraph) (d : ℚ) (u : Nat) (st : BiState) : BiState :=
  let r := g.get_fwd_range u
  (List.range' r.1 (r.2 - r.1)).foldl (fun st i =>
    if i < g.shortcuts.length then
      let sc := g.shortcuts.getD i default
      let nd := d + sc.cost
      let improve := match st.dist_fwd sc.to_ with
        | none => true
        | some dv => decide (nd < dv)
      if improve then
        let st1 := { st with
          dist_fwd := updFun st.dist_fwd sc.to_ nd,
          parent_fwd := updFun st.parent_fwd sc.to_ u,
          pq_fwd := pqPush st.pq_fwd (nd, sc.to_) }
        match st1.dist_bwd sc.to_ with
        | some db =>
          if ltBest (nd + db) st1.best then
            { st1 with best := some (nd + db), meeting := sc.to_, found := true }
          else st1
        | none => st1
      else st
    else st) st

/-- Backward relaxation of query_bidijkstra: no inside filter. -/
def bidijkstraRelaxBwd (g : CSRGraph) (d : ℚ) (u : Nat) (st : BiState) : BiState :=
  let r := g.get_bwd_range u
  (List.range' r.1 (r.2 - r.1)).foldl (fun st k =>
    if k < g.bwd_indices.length then
      let idx := g.bwd_indices.getD k 0
      if idx < g.shortcuts.length then
        let sc := g.shortcuts.getD idx default
        let nd := d + sc.cost
        let improve := match st.dist_bwd sc.from_ with
          | none => true
          | some dv => decide (nd < dv)
        if improve then
          let st1 := { st with
            dist_bwd := updFun st.dist_bwd sc.from_ nd,
            parent_bwd := updFun st.parent_bwd sc.from_ u,
            pq_bwd := pqPush st.pq_bwd (nd, sc.from_) }
          match st1.dist_fwd sc.from_ with
          | some df =>
            if ltBest (df + nd) st1.best then
              { st1 with best := some (df + nd), meeting := sc.from_, found := true }
            else st1
          | none => st1
        else st
      else st
    else st) st

/-- One body iteration of query_bidijkstra after the break test: step the
side with the smaller top.  The popped-entry staleness test models the
operator[] read d > dist[u] (u is always present when popped). -/
def bidijkstraStep (g : CSRGraph) (st : BiState) : BiState :=
  match st.pq_fwd, st.pq_bwd with
  | (df, _) :: _, (db, _) :: _ =>
    if df ≤ db then
      match st.pq_fwd with
      | [] => st
      | (d, u) :: rest =>
        let st := { st with pq_fwd := rest }
        if decide ((st.dist_fwd u).getD 0 < d) then st
        else bidijkstraRelaxFwd g d u st
    else
      match st.pq_bwd with
      | [] => st
      | (d, u) :: rest =>
        let st := { st with pq_bwd := rest }
        if decide ((st.dist_bwd u).getD 0 < d) then st
        else bidijkstraRelaxBwd g d u st
  | _, _ => st

/-- The while loop of query_bidijkstra: runs while both queues are nonempty
and the sum of the two tops is below best. -/
def bidijkstraLoop (g : CSRGraph) : Nat → BiState → BiState
  | 0, st => st
  | fuel + 1, st =>
    match st.pq_fwd, st.pq_bwd with
    | (df, _) :: _, (db, _) :: _ =>
      if geBest (df + db) st.best then st
      else bidijkstraLoop g fuel (bidijkstraStep g st)
    | _, _ => st

/-- Initial scratch state of query_bidijkstra; textually the same block as
classicInit in the source (backward seeded at edge_cost(target)). -/
def bidijkstraInit (g : CSRGraph) (source_edge target_edge : Nat) : BiState :=
  let target_cost := g.get_edge_cost target_edge
  { dist_fwd := updFun (fun _ => none) source_edge 0,
    dist_bwd := updFun (fun _ => none) target_edge target_cost,
    parent_fwd := updFun (fun _ => none) source_edge source_edge,
    parent_bwd := updFun (fun _ => none) target_edge target_edge,
    pq_fwd := [(0, source_edge)],
    pq_bwd := [(target_cost, target_edge)],
    best := none, meeting := 0, found := false }

/-- query_bidijkstra from csr_graph.cpp.  The returned distance is best
itself; nothing is added after the loop. -/
def CSRGraph.query_bidijkstra (g : CSRGraph) (source_edge target_edge : Nat) : CSRQueryResult :=
  if source_edge = target_edge then
    ⟨g.get_edge_cost source_edge, [source_edge], true, ""⟩
  else if (g.edge_meta source_edge).isNone then ⟨-1, [], false, "Source edge not found"⟩
  else if (g.edge_meta target_edge).isNone then ⟨-1, [], false, "Target edge not found"⟩
  else
    let st := bidijkstraLoop g queryFuel (bidijkstraInit g source_edge target_edge)
    if !st.found then ⟨-1, [], false, "No path found between source and target"⟩
    else
      let fwd_part := (traceParent st.parent_fwd queryFuel st.meeting).reverse
      let bwd_part := traceParentAfter st.parent_bwd queryFuel st.meeting
      ⟨st.best.getD (-1), fwd_part ++ bwd_part, true, ""⟩

-- ============================================================
-- QUERY: MULTI-SOURCE / MULTI-TARGET (csr_graph.cpp query_multi)
-- ============================================================

/-- Initial scratch state of query_multi: every present source seeded
forward at 0, every present target seeded backward at its edge cost.  The
caller-provided distances are not used for the keys. -/
def multiInit (g : CSRGraph) (source_edges target_edges : List Nat) : BiState :=
  let st0 : BiState :=
    { dist_fwd := fun _ => none, dist_bwd := fun _ => none,
      parent_fwd := fun _ => none, parent_bwd := fun _ => none,
      pq_fwd := [], pq_bwd := [], best := none, meeting := 0, found := false }
  let st1 := source_edges.foldl (fun st src =>
    if (g.edge_meta src).isSome then
      { st with dist_fwd := updFun st.dist_fwd src 0,
                parent_fwd := updFun st.parent_fwd src src,
                pq_fwd := pqPush st.pq_fwd (0, src) }
    else st) st0
  target_edges.foldl (fun st tgt =>
    let target_cost := g.get_edge_cost tgt
    if (g.edge_meta tgt).isSome then
      { st with dist_bwd := updFun st.dist_bwd tgt target_cost,
                parent_bwd := updFun st.parent_bwd tgt tgt,
                pq_bwd := pqPush st.pq_bwd (target_cost, tgt) }
    else st) st1

/-- query_multi from csr_graph.cpp.  Its while loop and result assembly are
the same code as query_classic, so classicLoop / classicResult are reused;
there is no self-query special case and no endpoint validation beyond
skipping absent seeds.  The dists arguments are informational only. -/
def CSRGraph.query_multi (g : CSRGraph) (source_edges : List Nat) (source_dists : List ℚ)
    (target_edges : List Nat) (target_dists : List ℚ) : CSRQueryResult :=
  let _ := source_dists
  let _ := target_dists
  classicResult (classicLoop g queryFuel (multiInit g source_edges target_edges))

-- ============================================================
-- QUERY: PLAIN DIJKSTRA (csr_graph.cpp query_dijkstra)
-- ============================================================

/-- Scratch state of query_dijkstra. -/
structure DijkstraState where
  dist : Nat → Option ℚ
  parent : Nat → Option Nat
  pq : List (ℚ × Nat)
  best_dist : Option ℚ
  found : Bool

/-- Relaxation loop of query_dijkstra: every outgoing shortcut, no filter. -/
def dijkstraRelax (g : CSRGraph) (d : ℚ) (u : Nat) (st : DijkstraState) : DijkstraState :=
  let r := g.get_fwd_range u
  (List.range' r.1 (r.2 - r.1)).foldl (fun st i =>
    if i < g.shortcuts.length then
      let sc := g.shortcuts.getD i default
      let nd := d + sc.cost
      let improve := match st.dist sc.to_ with
        | none => true
        | some dv => decide (nd < dv)
      if improve then
        { st with dist := updFun st.dist sc.to_ nd,
                  parent := updFun st.parent sc.to_ u,
                  pq := pqPush st.pq (nd, sc.to_) }
      else st
    else st) st

/-- The while loop of query_dijkstra: stops on the first pop of the target. -/
def dijkstraLoop (g : CSRGraph) (target_edge : Nat) : Nat → DijkstraState → DijkstraState
  | 0, st => st
  | fuel + 1, st =>
    match st.pq with
    | [] => st
    | (d, u) :: rest =>
      let st := { st with pq := rest }
      if decide ((st.dist u).getD 0 < d) then dijkstraLoop g target_edge fuel st
      else if u = target_edge then { st with best_dist := some d, found := true }
      else dijkstraLoop g target_edge fuel (dijkstraRelax g d u st)

/-- Path reconstruction of query_dijkstra: walk parent from the target back
to the source (operator[] read modelled with default 0). -/
def dijkstraTrace (parent : Nat → Option Nat) (source_edge : Nat) : Nat → Nat → List Nat
  | 0, _ => []
  | fuel + 1, curr =>
    if curr = source_edge then []
    else curr :: dijkstraTrace parent source_edge fuel ((parent curr).getD 0)

/-- query_dijkstra from csr_graph.cpp: the final distance adds
edge_cost(target) to the popped distance. -/
def CSRGraph.query_dijkstra (g : CSRGraph) (source_edge target_edge : Nat) : CSRQueryResult :=
  if source_edge = target_edge then
    ⟨g.get_edge_cost source_edge, [source_edge], true, ""⟩
  else if (g.edge_meta source_edge).isNone then ⟨-1, [], false, "Source edge not found"⟩
  else if (g.edge_meta target_edge).isNone then ⟨-1, [], false, "Target edge not found"⟩
  else
    let st0 : DijkstraState :=
      { dist := updFun (fun _ => none) source_edge 0,
        parent := updFun (fun _ => none) source_edge source_edge,
        pq := [(0, source_edge)], best_dist := none, found := false }
    let st := dijkstraLoop g target_edge queryFuel st0
    if !st.found then ⟨-1, [], false, "Path not found"⟩
    else
      let path := ((dijkstraTrace st.parent source_edge queryFuel target_edge) ++
        [source_edge]).reverse
      ⟨st.best_dist.getD (-1) + g.get_edge_cost target_edge, path, true, ""⟩

-- ============================================================
-- QUERY: PRUNED BIDIRECTIONAL (csr_graph.cpp query_pruned)
-- ============================================================

/-- Scratch state of query_pruned; queue entries carry the resolution of the
cell attached to the shortcut that reached the vertex. -/
structure PrunedState where
  dist_fwd : Nat → Option ℚ
  dist_bwd : Nat → Option ℚ
  parent_fwd : Nat → Option Nat
  parent_bwd : Nat → Option Nat
  pq_fwd : List (ℚ × Nat × Int)
  pq_bwd : List (ℚ × Nat × Int)
  best : Option ℚ
  meeting : Nat
  found : Bool
  min_arrival_fwd : Option ℚ
  min_arrival_bwd : Option ℚ

/-- Forward filter of query_pruned: if (sc.inside != 1) continue. -/
def prunedFwdAllowed (sc : CSRShortcut) : Bool := sc.inside == 1

/-- Backward filter of query_pruned with check = (u_res >= high_res):
inside -1 needs check, inside 0 needs u_res <= high_res, inside -2 needs
the negation of check. -/
def prunedBwdAllowed (high_res u_res : Int) (sc : CSRShortcut) : Bool :=
  let check := decide (u_res ≥ high_res)
  (sc.inside == -1 && check) || (sc.inside == 0 && decide (u_res ≤ high_res)) ||
    (sc.inside == -2 && !check)

/-- Forward relaxation of query_pruned: climbs only, no best update here. -/
def prunedRelaxFwd (g : CSRGraph) (d : ℚ) (u : Nat) (st : PrunedState) : PrunedState :=
  let r := g.get_fwd_range u
  (List.range' r.1 (r.2 - r.1)).foldl (fun st i =>
    if i < g.shortcuts.length then
      let sc := g.shortcuts.getD i default
      if prunedFwdAllowed sc then
        let nd := d + sc.cost
        let improve := match st.dist_fwd sc.to_ with
          | none => true
          | some dv => decide (nd < dv)
        if improve then
          { st with dist_fwd := updFun st.dist_fwd sc.to_ nd,
                    parent_fwd := updFun st.parent_fwd sc.to_ u,
                    pq_fwd := pqPush st.pq_fwd (nd, sc.to_, sc.get_res) }
        else st
      else st
    else st) st

/-- Backward relaxation of query_pruned under the pruned backward filter. -/
def prunedRelaxBwd (g : CSRGraph) (high_res : Int) (d : ℚ) (u : Nat) (u_res : Int)
    (st : PrunedState) : PrunedState :=
  let r := g.get_bwd_range u
  (List.range' r.1 (r.2 - r.1)).foldl (fun st k =>
    if k < g.bwd_indices.length then
      let idx := g.bwd_indices.getD k 0
      if idx < g.shortcuts.length then
        let sc := g.shortcuts.getD idx default
        if prunedBwdAllowed high_res u_res sc then
          let nd := d + sc.cost
          let improve := match st.dist_bwd sc.from_ with
            | none => true
            | some dv => decide (nd < dv)
          if improve then
            { st with dist_bwd := updFun st.dist_bwd sc.from_ nd,
                      parent_bwd := updFun st.parent_bwd sc.from_ u,
                      pq_bwd := pqPush st.pq_bwd (nd, sc.from_, sc.get_res) }
          else st
        else st
      else st
    else st) st

/-- Forward step block of query_pruned.  Meetings are detected at pop time,
before the staleness test; a vertex below the high resolution stops
expanding but still feeds min_arrival_fwd. -/
def prunedFwdStep (g : CSRGraph) (high_res : Int) (st : PrunedState) : PrunedState × Bool :=
  match st.pq_fwd with
  | [] => (st, false)
  | (d, u, u_res) :: rest =>
    let st := { st with pq_fwd := rest }
    let st := match st.dist_bwd u with
      | some db =>
        let st := { st with
          min_arrival_fwd := optMin ((st.dist_fwd u).getD 0) st.min_arrival_fwd,
          min_arrival_bwd := optMin db st.min_arrival_bwd }
        if ltBest (d + db) st.best then
          { st with best := some (d + db), meeting := u, found := true }
        else st
      | none => st
    let stale := match st.dist_fwd u with
      | some du => decide (du < d)
      | none => false
    if stale then (st, true)
    else if geBest d st.best then (st, true)
    else if u_res < high_res then
      ({ st with min_arrival_fwd := optMin ((st.dist_fwd u).getD 0) st.min_arrival_fwd }, true)
    else
      let st := if u_res = high_res then
        { st with min_arrival_fwd := optMin ((st.dist_fwd u).getD 0) st.min_arrival_fwd }
      else st
      (prunedRelaxFwd g d u st, false)

/-- Backward step block of query_pruned. -/
def prunedBwdStep (g : CSRGraph) (high_res : Int) (st : PrunedState) : PrunedState × Bool :=
  match st.pq_bwd with
  | [] => (st, false)
  | (d, u, u_res) :: rest =>
    let st := { st with pq_bwd := rest }
    let st := match st.dist_fwd u with
      | some df =>
        let st := { st with
          min_arrival_fwd := optMin df st.min_arrival_fwd,
          min_arrival_bwd := optMin ((st.dist_bwd u).getD 0) st.min_arrival_bwd }
        if ltBest (df + d) st.best then
          { st with best := some (df + d), meeting := u, found := true }
        else st
      | none => st
    let stale := match st.dist_bwd u with
      | some du => decide (du < d)
      | none => false
    if stale then (st, true)
    else if geBest d st.best then (st, true)
    else
      let check := decide (u_res ≥ high_res)
      let st := if u_res = high_res ∨ check = false then
        { st with min_arrival_bwd := optMin ((st.dist_bwd u).getD 0) st.min_arrival_bwd }
      else st
      (prunedRelaxBwd g high_res d u u_res st, false)

/-- One iteration of the while loop of query_pruned, ending with the
min_arrival-aware early termination test. -/
def prunedBody (g : CSRGraph) (high_res : Int) (st : PrunedState) : PrunedState × Bool :=
  match prunedFwdStep g high_res st with
  | (st, true) => (st, true)
  | (st, false) =>
    match prunedBwdStep g high_res st with
    | (st, true) => (st, true)
    | (st, false) =>
      match st.best with
      | none => (st, true)
      | some b =>
        let bound_fwd := match st.pq_fwd with
          | [] => st.min_arrival_fwd
          | (d, _) :: _ => optMin d st.min_arrival_fwd
        let bound_bwd := match st.pq_bwd with
          | [] => st.min_arrival_bwd
          | (d, _) :: _ => optMin d st.min_arrival_bwd
        let fwd_good := match st.pq_fwd with
          | [] => false
          | (d, _) :: _ => addLt d bound_bwd b
        let bwd_good := match st.pq_bwd with
          | [] => false
          | (d, _) :: _ => addLt d bound_fwd b
        if fwd_good = false ∧ bwd_good = false then (st, false) else (st, true)

/-- The while loop of query_pruned. -/
def prunedLoop (g : CSRGraph) (high_res : Int) : Nat → PrunedState → PrunedState
  | 0, st => st
  | fuel + 1, st =>
    if st.pq_fwd = [] ∧ st.pq_bwd = [] then st
    else
      match prunedBody g high_res st with
      | (st2, false) => st2
      | (st2, true) => prunedLoop g high_res fuel st2

/-- Initial scratch state of query_pruned: endpoint entries carry the
lca_res of the endpoint edges; backward seeded at edge_cost(target). -/
def prunedInit (g : CSRGraph) (source_edge target_edge : Nat) : PrunedState :=
  let src_res := match g.edge_meta source_edge with
    | some m => m.lca_res
    | none => -1
  let tgt_res := match g.edge_meta target_edge with
    | some m => m.lca_res
    | none => -1
  let target_cost := g.get_edge_cost target_edge
  { dist_fwd := updFun (fun _ => none) source_edge 0,
    dist_bwd := updFun (fun _ => none) target_edge target_cost,
    parent_fwd := updFun (fun _ => none) source_edge source_edge,
    parent_bwd := updFun (fun _ => none) target_edge target_edge,
    pq_fwd := [(0, source_edge, src_res)],
    pq_bwd := [(target_cost, target_edge, tgt_res)],
    best := none, meeting := 0, found := false,
    min_arrival_fwd := none, min_arrival_bwd := none }

/-- query_pruned from csr_graph.cpp. -/
def CSRGraph.query_pruned (g : CSRGraph) (source_edge target_edge : Nat) : CSRQueryResult :=
  if source_edge = target_edge then
    ⟨g.get_edge_cost source_edge, [source_edge], true, ""⟩
  else if (g.edge_meta source_edge).isNone then ⟨-1, [], false, "Source edge not found"⟩
  else if (g.edge_meta target_edge).isNone then ⟨-1, [], false, "Target edge not found"⟩
  else
    let high := g.compute_high_cell source_edge target_edge
    let st := prunedLoop g high.res queryFuel (prunedInit g source_edge target_edge)
    if !st.found then ⟨-1, [], false, "No path found"⟩
    else
      let fwd_part := (traceParent st.parent_fwd queryFuel st.meeting).reverse
      let bwd_part := traceParentAfter st.parent_bwd queryFuel st.meeting
      ⟨st.best.getD (-1), fwd_part ++ bwd_part, true, ""⟩

-- ============================================================
-- QUERY: UNIDIRECTIONAL PRUNED, PHASE DRAFT (csr_graph.cpp)
-- ============================================================

/-- Scratch state shared by the two unidirectional drafts; keys of the maps
are packed states. -/
structure UniState where
  dist_map : Nat → Option ℚ
  parent_map : Nat → Option Nat
  pq : List (ℚ × Nat)
  best_dist : Option ℚ
  best_end_state : Nat
  found : Bool

/-- Phase transition table of the csr_graph.cpp draft of
query_unidirectional (phases 0..3): some next_phase when the shortcut is
allowed, none otherwise. -/
def uniPhaseStep (high_res : Int) (sc : CSRShortcut) (phase : Nat) : Option Nat :=
  if phase = 0 ∨ phase = 1 then
    if sc.get_res > high_res ∧ sc.inside = 1 then some 1
    else if sc.get_res ≤ high_res ∧ sc.inside = 1 then some 2
    else if sc.inside ≠ 1 then some 2
    else none
  else if phase = 2 then
    if sc.inside ≠ 1 then some 3 else none
  else if phase = 3 then
    if sc.inside = -1 then some 3 else none
  else none

/-- Relaxation loop of the phase draft for popped state (d, u, phase). -/
def uniPhaseRelax (g : CSRGraph) (high_res : Int) (d : ℚ) (u : Nat) (phase : Nat)
    (st : UniState) : UniState :=
  let r := g.get_fwd_range u
  (List.range' r.1 (r.2 - r.1)).foldl (fun st i =>
    if i < g.shortcuts.length then
      let sc := g.shortcuts.getD i default
      match uniPhaseStep high_res sc phase with
      | none => st
      | some next_phase =>
        let nd := d + sc.cost
        let next_state := (sc.to_ <<< 4) ||| next_phase
        let improve := match st.dist_map next_state with
          | none => true
          | some dv => decide (nd < dv)
        if improve then
          { st with dist_map := updFun st.dist_map next_state nd,
                    parent_map := updFun st.parent_map next_state ((u <<< 4) ||| phase),
                    pq := pqPush st.pq (nd, next_state) }
        else st
    else st) st

/-- The while loop of the phase draft: breaks on the first non-stale pop of
the target, adding edge_cost(target) to the popped distance. -/
def uniPhaseLoop (g : CSRGraph) (high_res : Int) (target_edge : Nat) :
    Nat → UniState → UniState
  | 0, st => st
  | fuel + 1, st =>
    match st.pq with
    | [] => st
    | (d, packed) :: rest =>
      let st := { st with pq := rest }
      let u := packed >>> 4
      let phase := packed &&& 0xF
      if decide ((st.dist_map packed).getD 0 < d) then
        uniPhaseLoop g high_res target_edge fuel st
      else if geBest d st.best_dist then
        uniPhaseLoop g high_res target_edge fuel st
      else if u = target_edge then
        { st with best_dist := some (d + g.get_edge_cost target_edge),
                  best_end_state := packed, found := true }
      else
        uniPhaseLoop g high_res target_edge fuel (uniPhaseRelax g high_res d u phase st)

/-- Path reconstruction of the unidirectional drafts: decode the edge bits
along the parent chain. -/
def traceUni (parent : Nat → Option Nat) : Nat → Nat → List Nat
  | 0, curr => [curr >>> 4]
  | fuel + 1, curr =>
    (curr >>> 4) :: match parent curr with
      | none => []
      | some p => if p = curr then [] else traceUni parent fuel p

/-- query_unidirectional, the phase draft compiled in csr_graph.cpp. -/
def CSRGraph.query_unidirectional (g : CSRGraph) (source_edge target_edge : Nat) :
    CSRQueryResult :=
  if source_edge = target_edge then
    ⟨g.get_edge_cost source_edge, [source_edge], true, ""⟩
  else if g.is_valid_edge source_edge = false then ⟨-1, [], false, "Source edge not found"⟩
  else if g.is_valid_edge target_edge = false then ⟨-1, [], false, "Target edge not found"⟩
  else
    let high := g.compute_high_cell source_edge target_edge
    let start_state := (source_edge <<< 4) ||| 0
    let st0 : UniState :=
      { dist_map := updFun (fun _ => none) start_state 0,
        parent_map := updFun (fun _ => none) start_state start_state,
        pq := [(0, start_state)], best_dist := none, best_end_state := 0, found := false }
    let st := uniPhaseLoop g high.res target_edge queryFuel st0
    if !st.found then ⟨-1, [], false, "No path found"⟩
    else
      let path := (traceUni st.parent_map queryFuel st.best_end_state).reverse
      ⟨st.best_dist.getD (-1), path, true, ""⟩

-- ============================================================
-- QUERY: UNIDIRECTIONAL PRUNED, COUNTER DRAFT
-- (query_unidirectional_impl.cpp)
-- ============================================================

/-- Pruning rules of the query_unidirectional_impl.cpp draft, for state
(counter, used_minus1) and a vertex of resolution u_res: some (next_counter,
next_used_minus1) when the shortcut may be expanded, none otherwise. -/
def uniStep (u_res high_res inside : Int) (counter : Nat) (used_minus1 : Bool) :
    Option (Nat × Bool) :=
  if u_res > high_res then
    if inside = 1 then some (counter, used_minus1)
    else if inside = -1 then
      if used_minus1 then none else some (counter, true)
    else none
  else
    if inside = -1 then some (counter, used_minus1)
    else if inside = 0 ∨ inside = -2 then
      if counter < 2 then some (counter + 1, used_minus1) else none
    else none

/-- Relaxation loop of the counter draft for popped state
(d, u, counter, used_minus1). -/
def uniImplRelax (g : CSRGraph) (high_res : Int) (d : ℚ) (u : Nat) (u_res : Int)
    (counter : Nat) (used_minus1 : Bool) (st : UniState) : UniState :=
  let r := g.get_fwd_range u
  (List.range' r.1 (r.2 - r.1)).foldl (fun st i =>
    let sc := g.shortcuts.getD i default
    match uniStep u_res high_res sc.inside counter used_minus1 with
    | none => st
    | some nxt =>
      let nd := d + sc.cost
      let next_state := (sc.to_ <<< 4) ||| (nxt.1 <<< 1) ||| (if nxt.2 then 1 else 0)
      let improve := match st.dist_map next_state with
        | none => true
        | some dv => decide (nd < dv)
      if improve then
        { st with dist_map := updFun st.dist_map next_state nd,
                  parent_map := updFun st.parent_map next_state
                    ((u <<< 4) ||| (counter <<< 1) ||| (if used_minus1 then 1 else 0)),
                  pq := pqPush st.pq (nd, next_state) }
      else st) st

/-- The while loop of the counter draft: popping the target records the
popped distance (no edge cost added) and keeps searching. -/
def uniImplLoop (g : CSRGraph) (high_res : Int) (target_edge : Nat) :
    Nat → UniState → UniState
  | 0, st => st
  | fuel + 1, st =>
    match st.pq with
    | [] => st
    | (d, packed) :: rest =>
      let st := { st with pq := rest }
      let u := packed >>> 4
      let counter := (packed >>> 1) &&& 0x7
      let used_minus1 := packed &&& 1 = 1
      if decide ((st.dist_map packed).getD 0 < d) then
        uniImplLoop g high_res target_edge fuel st
      else if geBest d st.best_dist then
        uniImplLoop g high_res target_edge fuel st
      else if u = target_edge then
        let st := if ltBest d st.best_dist then
          { st with best_dist := some d, best_end_state := packed, found := true }
        else st
        uniImplLoop g high_res target_edge fuel st
      else
        let u_res := match g.get_edge_meta u with
          | some m => m.lca_res
          | none => -1
        uniImplLoop g high_res target_edge fuel
          (uniImplRelax g high_res d u u_res counter used_minus1 st)

/-- query_unidirectional, the counter draft from
query_unidirectional_impl.cpp. -/
def CSRGraph.query_unidirectional_impl (g : CSRGraph) (source_edge target_edge : Nat) :
    CSRQueryResult :=
  if source_edge = target_edge then
    ⟨g.get_edge_cost source_edge, [source_edge], true, ""⟩
  else if g.is_valid_edge source_edge = false then ⟨-1, [], false, "Source edge not found"⟩
  else if g.is_valid_edge target_edge = false then ⟨-1, [], false, "Target edge not found"⟩
  else
    let high := g.compute_high_cell source_edge target_edge
    let start_state := (source_edge <<< 4) ||| (0 <<< 1) ||| 0
    let st0 : UniState :=
      { dist_map := updFun (fun _ => none) start_state 0,
        parent_map := updFun (fun _ => none) start_state start_state,
        pq := [(0, start_state)], best_dist := none, best_end_state := 0, found := false }
    let st := uniImplLoop g high.res target_edge queryFuel st0
    if !st.found then ⟨-1, [], false, "No path found"⟩
    else
      let path := (traceUni st.parent_map queryFuel st.best_end_state).reverse
      ⟨st.best_dist.getD (-1), path, true, ""⟩

-- ============================================================
-- LOADER (csr_graph.cpp load_shortcuts)
-- ============================================================

/-- TempShortcut from csr_graph.cpp: one parsed row of the shortcuts table
(the cell_res scratch field is recomputed on demand and omitted). -/
structure TempShortcut where
  from_ : Nat
  to_ : Nat
  cost : ℚ
  via_edge : Nat
  cell : Nat
  inside : Int
deriving DecidableEq, Inhabited

/-- Assignment of an int to the 2-bit signed bitfield CSRShortcut::inside
(gcc semantics: value taken modulo 4 into the range -2..1). -/
def wrap2 (x : Int) : Int := (x + 2) % 4 - 2

/-- max_edge_id computation over the parsed rows. -/
def loadMaxEdge (l : List TempShortcut) : Nat :=
  l.foldl (fun m sc => max (max m sc.from_) sc.to_) 0

/-- counts[i]++ with the out-of-range write dropped (never reached by the
loader, which sizes counts to max_edge_id+1). -/
def bumpAt (cnts : List Nat) (i : Nat) : List Nat := cnts.set i (cnts.getD i 0 + 1)

/-- The per-source (or per-target) counting loop of load_shortcuts. -/
def countOcc (xs : List Nat) (len : Nat) : List Nat :=
  xs.foldl bumpAt (List.replicate len 0)

/-- The offset-building loop of load_shortcuts: running prefix sums, with
the final total appended (fwd_offsets[max_edge_id+1] = offset). -/
def offsetsFromCounts : List Nat → Nat → List Nat
  | [], acc => [acc]
  | c :: rest, acc => acc :: offsetsFromCounts rest (acc + c)

/-- One write of the backward-index fill loop: bump the cursor of the
shortcut's target and record the shortcut index at the old cursor. -/
def fillStep (s : List Nat × List Nat) (p : Nat × CSRShortcut) : List Nat × List Nat :=
  (s.1.set p.2.to_ (s.1.getD p.2.to_ 0 + 1), s.2.set (s.1.getD p.2.to_ 0) p.1)

/-- The backward-index fill loop of load_shortcuts: a per-target write
cursor starting at bwd_offsets, filling bwd_indices left to right. -/
def fillBwd (shortcuts : List CSRShortcut) (bwd_offsets : List Nat) : List Nat :=
  (((List.range shortcuts.length).zip shortcuts).foldl fillStep
    (bwd_offsets.dropLast, List.replicate shortcuts.length 0)).2

/-- Copy of a parsed row into the packed CSRShortcut record. -/
def tempToShortcut (t : TempShortcut) : CSRShortcut :=
  ⟨t.cell, t.cost, t.from_, t.to_, t.via_edge, wrap2 t.inside⟩

/-- load_shortcuts from csr_graph.cpp, starting from the parsed rows (the
parquet parsing itself is outside the modelled core).  std::sort is
unstable with unspecified order of equal keys; insertion sort by from_
realizes one permitted outcome.  Metadata is loaded separately. -/
def load_shortcuts (temp_list : List TempShortcut) : Option CSRGraph :=
  if temp_list = [] then none
  else
    let max_edge_id := loadMaxEdge temp_list
    let sorted := List.insertionSort (fun a b => a.from_ ≤ b.from_) temp_list
    let counts := countOcc (sorted.map (fun t => t.from_)) (max_edge_id + 1)
    let fwd_offsets := offsetsFromCounts counts 0
    let shortcuts := sorted.map tempToShortcut
    let bcounts := countOcc (shortcuts.map (fun sc => sc.to_)) (max_edge_id + 1)
    let bwd_offsets := offsetsFromCounts bcounts 0
    let bwd_indices := fillBwd shortcuts bwd_offsets
    some ⟨shortcuts, fwd_offsets, bwd_offsets, bwd_indices, max_edge_id, fun _ => none⟩

/-- load_edge_metadata from csr_graph.cpp, starting from the parsed rows
(CSV parsing is outside the modelled core): keys the metadata map. -/
def load_edge_metadata (g : CSRGraph) (rows : Nat → Option CSREdgeMeta) : CSRGraph :=
  { g with edge_meta := rows }

-- ============================================================
-- PATH COST RECOMPUTATION (csr_graph.cpp query_classic_alt true cost)
-- ============================================================

/-- Sum of the shortcut costs along consecutive path pairs, taking for each
pair the first matching shortcut in the forward range (this mirrors the
true-cost recomputation walk in query_classic_alt). -/
def CSRGraph.pathShortcutSum (g : CSRGraph) (p : List Nat) : ℚ :=
  ((p.zip p.tail).map (fun q =>
    let idx := g.find_shortcut_index q.1 q.2
    if 0 ≤ idx ∧ idx < (g.shortcuts.length : Int) then
      (g.shortcuts.getD idx.toNat default).cost
    else 0)).sum

-- ============================================================
-- CONCRETE GRAPHS FOR THE CLAIMS
-- ============================================================

/-- Edge metadata row with trivial hierarchy data (cells 0, lca_res -1),
zero length and the given cost. -/
def mkMeta (c : ℚ) : CSREdgeMeta := ⟨0, 0, -1, 0, c⟩

/-- G1: shortcuts 1 -(lateral, cost 1)-> 2 -(climb, cost 1)-> 3 on a trivial
hierarchy; edges 1, 2, 3 loaded with cost 1.  CSR fields are the exact
arrays load_shortcuts builds for these rows. -/
def G1 : CSRGraph :=
  { shortcuts := [⟨0, 1, 1, 2, 0, 0⟩, ⟨0, 1, 2, 3, 0, 1⟩],
    fwd_offsets := [0, 0, 1, 2, 2],
    bwd_offsets := [0, 0, 0, 1, 2],
    bwd_indices := [0, 1],
    max_edge_id := 3,
    edge_meta := fun n =>
      if n = 1 then some (mkMeta 1)
      else if n = 2 then some (mkMeta 1)
      else if n = 3 then some (mkMeta 1)
      else none }

/-- Gc5: one climb shortcut 1 -> 2 of cost 10; edges 1 and 2 loaded with
distinct costs 2 and 5. -/
def Gc5 : CSRGraph :=
  { shortcuts := [⟨0, 10, 1, 2, 0, 1⟩],
    fwd_offsets := [0, 0, 1, 1],
    bwd_offsets := [0, 0, 0, 1],
    bwd_indices := [0],
    max_edge_id := 2,
    edge_meta := fun n =>
      if n = 1 then some (mkMeta 2)
      else if n = 2 then some (mkMeta 5)
      else none }

/-- G2 w: the Gc5 graph with symbolic shortcut cost w. -/
def G2 (w : ℚ) : CSRGraph :=
  { shortcuts := [⟨0, w, 1, 2, 0, 1⟩],
    fwd_offsets := [0, 0, 1, 1],
    bwd_offsets := [0, 0, 0, 1],
    bwd_indices := [0],
    max_edge_id := 2,
    edge_meta := fun n =>
      if n = 1 then some (mkMeta 2)
      else if n = 2 then some (mkMeta 5)
      else none }

/-- G4 a b c w1 w2: a two-shortcut climb route 1 -> 2 -> 3 with symbolic
shortcut costs w1 and w2 (both inside +1) and symbolic edge costs a, b, c on
the edges 1, 2, 3. -/
def G4 (a b c w1 w2 : ℚ) : CSRGraph :=
  { shortcuts := [⟨0, w1, 1, 2, 0, 1⟩, ⟨0, w2, 2, 3, 0, 1⟩],
    fwd_offsets := [0, 0, 1, 2, 2],
    bwd_offsets := [0, 0, 0, 1, 2],
    bwd_indices := [0, 1],
    max_edge_id := 3,
    edge_meta := fun n =>
      if n = 1 then some (mkMeta a)
      else if n = 2 then some (mkMeta b)
      else if n = 3 then some (mkMeta c)
      else none }

/-- GS5: the expansion scenario graph: base shortcuts (1,2) and (2,3) with
via 0, and the compressed shortcut (1,3) with via 2. -/
def GS5 : CSRGraph :=
  { shortcuts := [⟨0, 1, 1, 2, 0, 1⟩, ⟨0, 1, 1, 3, 2, 1⟩, ⟨0, 1, 2, 3, 0, 1⟩],
    fwd_offsets := [0, 0, 2, 3, 3],
    bwd_offsets := [0, 0, 0, 1, 3],
    bwd_indices := [0, 1, 2],
    max_edge_id := 3,
    edge_meta := fun n =>
      if n = 1 then some (mkMeta 1)
      else if n = 2 then some (mkMeta 1)
      else if n = 3 then some (mkMeta 1)
      else none }

/-- C7G: a 52-link chain of compressed shortcuts (k, 60) with via k+1, deep
enough that expand_path hits the recursion depth cap 50. -/
def C7G : CSRGraph :=
  { shortcuts := (List.range 52).map (fun k => ⟨0, 1, k, 60, k + 1, 1⟩),
    fwd_offsets := (List.range 62).map (fun i => min i 52),
    bwd_offsets := (List.range 62).map (fun i => if i ≤ 60 then 0 else 52),
    bwd_indices := List.range 52,
    max_edge_id := 60,
    edge_meta := fun _ => none }

/-- L6: parsed shortcut rows for the loader witness (unsorted on purpose). -/
def L6 : List TempShortcut :=
  [⟨2, 3, 5, 0, 0, 1⟩, ⟨1, 2, 4, 0, 0, 1⟩, ⟨1, 3, 7, 2, 0, 0⟩, ⟨3, 1, 2, 0, 0, -1⟩]

/-- The CSR graph produced by loading L6. -/
def GL6 : CSRGraph :=
  (load_shortcuts L6).getD ⟨[], [], [], [], 0, fun _ => none⟩

-- ============================================================
-- THEOREMS
-- ============================================================

-- Helper lemmas shared by several claims.

/-- Metadata rows of G1 all carry lca_res -1. -/
theorem G1_meta_lca : ∀ e m, G1.edge_meta e = some m → m.lca_res = -1 := by
  intro e m h
  simp only [G1] at h
  split at h
  · cases h; rfl
  · split at h
    · cases h; rfl
    · split at h
      · cases h; rfl
      · cases h

-- ------------------------------------------------------------
-- Claim C1
-- ------------------------------------------------------------

/-- Claim C1 counterexample: on G1 every shortcut has inside in {+1,0,-1},
every loaded edge has lca_res -1 and the computed high_res is -1, yet
query_classic and query_pruned report no path for (1,3) while query_dijkstra
and query_bidijkstra return cost 3, so the four algorithms do not all return
the same total cost. -/
theorem c1_counterexample :
    (∀ sc ∈ G1.shortcuts, sc.inside = 1 ∨ sc.inside = 0 ∨ sc.inside = -1) ∧
    (∀ e m, G1.edge_meta e = some m → m.lca_res = -1) ∧
    (G1.compute_high_cell 1 3).res = -1 ∧
    (G1.query_dijkstra 1 3).reachable = true ∧
    (G1.query_dijkstra 1 3).distance = 3 ∧
    (G1.query_bidijkstra 1 3).distance = 3 ∧
    (G1.query_classic 1 3).reachable = false ∧
    (G1.query_pruned 1 3).reachable = false ∧
    (G1.query_classic 1 3).distance ≠ (G1.query_dijkstra 1 3).distance ∧
    (G1.query_pruned 1 3).distance ≠ (G1.query_dijkstra 1 3).distance :=
  ⟨by decide, G1_meta_lca, by decide, by decide, by decide, by decide, by decide, by decide,
    by decide, by decide⟩

/-- Claim C1 amended: with a trivial hierarchy (high_res = -1 and every
per-vertex resolution equal to -1), query_pruned applies exactly the
query_classic per-shortcut filters (climb-only forward, lateral/descend
backward) and its below-peak vertex gate is inactive; but the four
algorithms need not return equal costs, since classic and pruned can
report no path where the unfiltered searches find one. -/
theorem c1_amended : ∀ (u_res : Int) (sc : CSRShortcut), -1 ≤ u_res →
    (prunedFwdAllowed sc = classicFwdAllowed sc) ∧
    (u_res = -1 → prunedBwdAllowed (-1) u_res sc = classicBwdAllowed sc) ∧
    (decide (u_res < (-1 : Int)) = false) := by
  intro u_res sc h
  refine ⟨rfl, ?_, ?_⟩
  · intro hu
    subst hu
    simp [prunedBwdAllowed, classicBwdAllowed]
  · simpa using h

/-- Witness for c1_amended at u_res = -1 and a lateral shortcut. -/
theorem c1_amended_witness :
    (-1 : Int) ≤ -1 ∧
    (prunedFwdAllowed ⟨0, 1, 1, 2, 0, 0⟩ = classicFwdAllowed ⟨0, 1, 1, 2, 0, 0⟩ ∧
      prunedBwdAllowed (-1) (-1) ⟨0, 1, 1, 2, 0, 0⟩ = classicBwdAllowed ⟨0, 1, 1, 2, 0, 0⟩ ∧
      decide ((-1 : Int) < -1) = false) :=
  ⟨by decide,
    (c1_amended (-1) ⟨0, 1, 1, 2, 0, 0⟩ (by decide)).1,
    (c1_amended (-1) ⟨0, 1, 1, 2, 0, 0⟩ (by decide)).2.1 rfl,
    (c1_amended (-1) ⟨0, 1, 1, 2, 0, 0⟩ (by decide)).2.2⟩

-- ------------------------------------------------------------
-- Claim C3
-- ------------------------------------------------------------

/-- Claim C3 counterexample: edge 9999 is absent from edge_meta, yet the
self-query (9999, 9999) returns reachable = true with distance 0, because
the self-query branch runs before the endpoint validation. -/
theorem c3_counterexample :
    G1.edge_meta 9999 = none ∧
    G1.query_classic 9999 9999 = ⟨0, [9999], true, ""⟩ ∧
    (G1.query_classic 9999 9999).reachable = true := by
  refine ⟨by decide, by decide, by decide⟩

/-- Claim C3 amended: for source distinct from target, query_classic,
query_pruned, query_bidijkstra and query_dijkstra return reachable = false
with a message naming which endpoint is missing when it is absent from
edge_meta (they do not check CSR range), and the unidirectional variants do
the same when an endpoint fails the CSR-range check (they do not check
edge_meta). -/
theorem c3_amended : ∀ (g : CSRGraph) (s t : Nat), s ≠ t →
    (g.edge_meta s = none →
      g.query_classic s t = ⟨-1, [], false, "Source edge not found"⟩ ∧
      g.query_pruned s t = ⟨-1, [], false, "Source edge not found"⟩ ∧
      g.query_bidijkstra s t = ⟨-1, [], false, "Source edge not found"⟩ ∧
      g.query_dijkstra s t = ⟨-1, [], false, "Source edge not found"⟩) ∧
    ((g.edge_meta s).isSome = true → g.edge_meta t = none →
      g.query_classic s t = ⟨-1, [], false, "Target edge not found"⟩ ∧
      g.query_pruned s t = ⟨-1, [], false, "Target edge not found"⟩ ∧
      g.query_bidijkstra s t = ⟨-1, [], false, "Target edge not found"⟩ ∧
      g.query_dijkstra s t = ⟨-1, [], false, "Target edge not found"⟩) ∧
    (g.is_valid_edge s = false →
      g.query_unidirectional s t = ⟨-1, [], false, "Source edge not found"⟩ ∧
      g.query_unidirectional_impl s t = ⟨-1, [], false, "Source edge not found"⟩) ∧
    (g.is_valid_edge s = true → g.is_valid_edge t = false →
      g.query_unidirectional s t = ⟨-1, [], false, "Target edge not found"⟩ ∧
      g.query_unidirectional_impl s t = ⟨-1, [], false, "Target edge not found"⟩) := by
  intro g s t hst
  refine ⟨?_, ?_, ?_, ?_⟩
  · intro hs
    refine ⟨?_, ?_, ?_, ?_⟩ <;>
      simp [CSRGraph.query_classic, CSRGraph.query_pruned, CSRGraph.query_bidijkstra,
        CSRGraph.query_dijkstra, hst, hs]
  · intro hs ht
    refine ⟨?_, ?_, ?_, ?_⟩ <;>
      simp [CSRGraph.query_classic, CSRGraph.query_pruned, CSRGraph.query_bidijkstra,
        CSRGraph.query_dijkstra, hst, ht, Option.isNone_iff_eq_none,
        Option.isSome_iff_ne_none.mp hs]
  · intro hs
    refine ⟨?_, ?_⟩ <;>
      simp [CSRGraph.query_unidirectional, CSRGraph.query_unidirectional_impl, hst, hs]
  · intro hs ht
    refine ⟨?_, ?_⟩ <;>
      simp [CSRGraph.query_unidirectional, CSRGraph.query_unidirectional_impl, hst, hs, ht]

/-- Witness for c3_amended on G1 with the absent edge 9999. -/
theorem c3_amended_witness :
    (9999 ≠ 1 ∧ G1.edge_meta 9999 = none ∧ G1.is_valid_edge 9999 = false) ∧
    G1.query_classic 9999 1 = ⟨-1, [], false, "Source edge not found"⟩ ∧
    G1.query_unidirectional 9999 1 = ⟨-1, [], false, "Source edge not found"⟩ :=
  ⟨⟨by decide, by decide, by decide⟩,
    ((c3_amended G1 9999 1 (by decide)).1 (by decide)).1,
    ((c3_amended G1 9999 1 (by decide)).2.2.1 (by decide)).1⟩

-- ------------------------------------------------------------
-- Claim C4
-- ------------------------------------------------------------

/-- Claim C4 counterexample: the claimed rules say that above the peak a
climb shortcut (inside = +1) is allowed only when used_minus1 is false; the
code of query_unidirectional_impl.cpp allows it regardless, e.g. at
u_res = 5 > high_res = 3 with used_minus1 = true it returns an allowed,
unchanged state instead of rejecting. -/
theorem c4_counterexample :
    ¬ (∀ (u_res high_res : Int) (counter : Nat),
        u_res > high_res → uniStep u_res high_res 1 counter true = none) := by
  intro h
  exact absurd (h 5 3 0 (by norm_num)) (by decide)

/-- Claim C4 amended, the rules the code actually implements: above the peak
(u_res > high_res), inside = +1 is always allowed leaving the state
unchanged, and inside = -1 is allowed only when used_minus1 is false, then
setting used_minus1; at or below the peak, inside = -1 is always allowed
leaving the state unchanged, and inside in {0, -2} is allowed exactly when
counter < 2, incrementing counter and leaving used_minus1 unchanged;
nothing else is allowed. -/
theorem c4_amended : ∀ (u_res high_res inside : Int) (counter : Nat) (used_minus1 : Bool),
    (u_res > high_res →
      (inside = 1 → uniStep u_res high_res inside counter used_minus1 =
        some (counter, used_minus1)) ∧
      (inside = -1 → used_minus1 = true →
        uniStep u_res high_res inside counter used_minus1 = none) ∧
      (inside = -1 → used_minus1 = false →
        uniStep u_res high_res inside counter used_minus1 = some (counter, true)) ∧
      (inside ≠ 1 → inside ≠ -1 →
        uniStep u_res high_res inside counter used_minus1 = none)) ∧
    (¬ u_res > high_res →
      (inside = -1 → uniStep u_res high_res inside counter used_minus1 =
        some (counter, used_minus1)) ∧
      ((inside = 0 ∨ inside = -2) → counter < 2 →
        uniStep u_res high_res inside counter used_minus1 = some (counter + 1, used_minus1)) ∧
      ((inside = 0 ∨ inside = -2) → ¬ counter < 2 →
        uniStep u_res high_res inside counter used_minus1 = none) ∧
      (inside ≠ -1 → inside ≠ 0 → inside ≠ -2 →
        uniStep u_res high_res inside counter used_minus1 = none)) := by
  intro u_res high_res inside counter used_minus1
  constructor
  · intro hgt
    refine ⟨?_, ?_, ?_, ?_⟩
    · intro h1; simp [uniStep, hgt, h1]
    · intro h1 hu; subst h1 hu; simp [uniStep, hgt]
    · intro h1 hu; subst h1 hu; simp [uniStep, hgt]
    · intro h1 h2; simp [uniStep, hgt, h1, h2]
  · intro hle
    refine ⟨?_, ?_, ?_, ?_⟩
    · intro h1; subst h1; simp [uniStep, hle]
    · intro h1 hc
      rcases h1 with h1 | h1 <;> subst h1 <;> simp [uniStep, hle, hc]
    · intro h1 hc
      rcases h1 with h1 | h1 <;> subst h1 <;> simp [uniStep, hle, hc]
    · intro h1 h2 h3; simp [uniStep, hle, h1, h2, h3]

/-- Witness for c4_amended above the peak with a climb shortcut. -/
theorem c4_amended_witness :
    (5 : Int) > 3 ∧ uniStep 5 3 1 0 true = some (0, true) :=
  ⟨by norm_num, ((c4_amended 5 3 1 0 true).1 (by norm_num)).1 rfl⟩

-- ------------------------------------------------------------
-- Claim C5
-- ------------------------------------------------------------

/-- Claim C5 counterexample: on Gc5 (one climb shortcut of cost 10 between
edges of costs 2 and 5) query_bidijkstra returns 15 = 10 + edge_cost(target),
the same convention as query_classic; the claimed convention (backward seeded
at 0, edge_cost(path[0]) added at the end) would give 10 + 2 = 12. -/
theorem c5_counterexample :
    (Gc5.query_bidijkstra 1 2).path = [1, 2] ∧
    (Gc5.query_bidijkstra 1 2).distance = 15 ∧
    (Gc5.query_bidijkstra 1 2).distance = 10 + Gc5.get_edge_cost 2 ∧
    10 + Gc5.get_edge_cost 1 = 12 ∧
    (Gc5.query_bidijkstra 1 2).distance ≠ 10 + Gc5.get_edge_cost 1 := by
  refine ⟨by decide, by decide, by decide, by decide, by decide⟩

/-- Claim C5 amended: query_classic, query_multi and query_bidijkstra all
seed the backward frontier with initial key edge_cost(target); bidijkstra
returns the meeting cost as is, adding nothing at the end. -/
theorem c5_amended : ∀ (g : CSRGraph) (s t : Nat),
    (classicInit g s t).dist_bwd t = some (g.get_edge_cost t) ∧
    (classicInit g s t).pq_bwd = [(g.get_edge_cost t, t)] ∧
    (bidijkstraInit g s t).dist_bwd t = some (g.get_edge_cost t) ∧
    (bidijkstraInit g s t).pq_bwd = [(g.get_edge_cost t, t)] ∧
    ((g.edge_meta t).isSome = true →
      (multiInit g [s] [t]).dist_bwd t = some (g.get_edge_cost t) ∧
      (multiInit g [s] [t]).pq_bwd = [(g.get_edge_cost t, t)]) := by
  intro g s t
  refine ⟨?_, rfl, ?_, rfl, ?_⟩
  · simp [classicInit, updFun]
  · simp [bidijkstraInit, updFun]
  · intro ht
    constructor <;>
      · cases hs : (g.edge_meta s).isSome <;>
          simp [multiInit, updFun, pqPush, ht, hs]

/-- Witness for c5_amended on Gc5. -/
theorem c5_amended_witness :
    (Gc5.edge_meta 2).isSome = true ∧
    ((classicInit Gc5 1 2).dist_bwd 2 = some (Gc5.get_edge_cost 2) ∧
      (multiInit Gc5 [1] [2]).pq_bwd = [(Gc5.get_edge_cost 2, 2)]) :=
  ⟨by decide,
    (c5_amended Gc5 1 2).1,
    ((c5_amended Gc5 1 2).2.2.2.2 (by decide)).2⟩

-- ------------------------------------------------------------
-- Claim C8
-- ------------------------------------------------------------

/-- Claim C8 counterexample: query_multi seeded with edge 1 on both sides
returns "No path found" on Gc5 even though edge 1 is loaded; it has no
self-query special case, unlike the pairwise algorithms. -/
theorem c8_counterexample :
    (Gc5.edge_meta 1).isSome = true ∧
    Gc5.query_multi [1] [0] [1] [0] = ⟨-1, [], false, "No path found"⟩ ∧
    Gc5.query_multi [1] [0] [1] [0] ≠ ⟨Gc5.get_edge_cost 1, [1], true, ""⟩ := by
  refine ⟨by decide, by decide, by decide⟩

/-- Claim C8 amended: every pairwise query algorithm (classic, pruned, full
bidirectional, plain Dijkstra, and both unidirectional drafts) answers the
self-query (e, e) with distance edge_cost(e), path [e], reachable = true and
empty error; query_multi seeded with e on both sides has no such special
case and can return no path. -/
theorem c8_amended : ∀ (g : CSRGraph) (e : Nat),
    g.query_classic e e = ⟨g.get_edge_cost e, [e], true, ""⟩ ∧
    g.query_pruned e e = ⟨g.get_edge_cost e, [e], true, ""⟩ ∧
    g.query_bidijkstra e e = ⟨g.get_edge_cost e, [e], true, ""⟩ ∧
    g.query_dijkstra e e = ⟨g.get_edge_cost e, [e], true, ""⟩ ∧
    g.query_unidirectional e e = ⟨g.get_edge_cost e, [e], true, ""⟩ ∧
    g.query_unidirectional_impl e e = ⟨g.get_edge_cost e, [e], true, ""⟩ := by
  intro g e
  refine ⟨?_, ?_, ?_, ?_, ?_, ?_⟩ <;>
    simp [CSRGraph.query_classic, CSRGraph.query_pruned, CSRGraph.query_bidijkstra,
      CSRGraph.query_dijkstra, CSRGraph.query_unidirectional,
      CSRGraph.query_unidirectional_impl]

-- ------------------------------------------------------------
-- Path expansion lemmas (claims C7 and C10)
-- ------------------------------------------------------------

/-- Unfolding equation of expandAux in terms of itself: the fuel supplied by
expandAux always covers the next level until the depth cap fires. -/
theorem expandAux_eq (g : CSRGraph) (u v depth : Nat) :
    g.expandAux u v depth =
      if depth > 50 then [u]
      else
        let idx := g.find_shortcut_index u v
        if idx < 0 ∨ (g.shortcuts.length : Int) ≤ idx then [u]
        else
          let via := (g.shortcuts.getD idx.toNat default).via_edge
          if via = u ∨ via = v ∨ via = 0 then [u]
          else g.expandAux u via (depth + 1) ++ g.expandAux via v (depth + 1) := by
  show expandGo g (51 - depth + 1) u v depth = _
  by_cases hd : depth > 50
  · simp only [expandGo, hd, if_pos]
  · have hfuel : 51 - depth = 51 - (depth + 1) + 1 := by omega
    simp only [expandGo, hd, if_neg, CSRGraph.expandAux, hfuel]

/-- Every expandAux result starts with its first argument and is nonempty. -/
theorem expandGo_cons (g : CSRGraph) (fuel : Nat) :
    ∀ u v depth, ∃ t, expandGo g fuel u v depth = u :: t := by
  induction fuel with
  | zero => exact fun u v depth => ⟨[], rfl⟩
  | succ f ih =>
    intro u v depth
    simp only [expandGo]
    by_cases hd : depth > 50
    · exact ⟨[], by simp [hd]⟩
    · simp only [hd, if_false]
      by_cases h1 : g.find_shortcut_index u v < 0 ∨
          (g.shortcuts.length : Int) ≤ g.find_shortcut_index u v
      · exact ⟨[], by simp [h1]⟩
      · simp only [h1, if_false]
        by_cases h2 : (g.shortcuts.getD (g.find_shortcut_index u v).toNat default).via_edge = u ∨
            (g.shortcuts.getD (g.find_shortcut_index u v).toNat default).via_edge = v ∨
            (g.shortcuts.getD (g.find_shortcut_index u v).toNat default).via_edge = 0
        · exact ⟨[], by rw [if_pos h2]⟩
        · simp only [h2, if_false]
          obtain ⟨t, ht⟩ := ih u
            (g.shortcuts.getD (g.find_shortcut_index u v).toNat default).via_edge (depth + 1)
          exact ⟨t ++ _, by rw [ht]; rfl⟩

/-- expandAux form of expandGo_cons. -/
theorem expandAux_cons (g : CSRGraph) (u v depth : Nat) :
    ∃ t, g.expandAux u v depth = u :: t :=
  expandGo_cons g (51 - depth + 1) u v depth

/-- expand_path on a two-element input is the expansion of the pair followed
by the final edge. -/
theorem expand_path_pair (g : CSRGraph) (x y : Nat) :
    g.expand_path [x, y] = g.expandAux x y 0 ++ [y] := by
  simp [CSRGraph.expand_path, List.getLast!]

/-- getLast? of a nonempty list realizes getLast!. -/
theorem getLast?_eq_some_getLastBang (p : List Nat) (h : p ≠ []) :
    p.getLast? = some p.getLast! := by
  cases p with
  | nil => exact absurd rfl h
  | cons a t => rw [List.getLast?_eq_getLast (a :: t) (by simp), List.getLast!]

-- ------------------------------------------------------------
-- Claim C10
-- ------------------------------------------------------------

/-- Claim C10: expand_path returns inputs of length at most one unchanged;
for longer inputs the result begins with the input's first element and ends
with the input's last element. -/
theorem c10_expand_path_ends : ∀ (g : CSRGraph) (p : List Nat),
    (p.length ≤ 1 → g.expand_path p = p) ∧
    (2 ≤ p.length →
      (g.expand_path p).head? = p.head? ∧ (g.expand_path p).getLast? = p.getLast?) := by
  intro g p
  constructor
  · intro h
    simp [CSRGraph.expand_path, h]
  · intro h
    match p, h with
    | a :: b :: rest, _ =>
      have hne : ¬ ((a :: b :: rest : List Nat).length ≤ 1) := by simp
      constructor
      · simp only [CSRGraph.expand_path, hne, if_false]
        obtain ⟨t, ht⟩ := expandAux_cons g a b 0
        simp [ht]
      · simp only [CSRGraph.expand_path, hne, if_false]
        rw [List.getLast?_concat, getLast?_eq_some_getLastBang (a :: b :: rest) (by simp)]

/-- Witness for c10_expand_path_ends on GS5 with a singleton and the pair
[1, 3]. -/
theorem c10_witness :
    ((([5] : List Nat).length ≤ 1 ∧ GS5.expand_path [5] = [5]) ∧
      (2 ≤ ([1, 3] : List Nat).length ∧
        ((GS5.expand_path [1, 3]).head? = ([1, 3] : List Nat).head? ∧
          (GS5.expand_path [1, 3]).getLast? = ([1, 3] : List Nat).getLast?))) :=
  ⟨⟨by decide, (c10_expand_path_ends GS5 [5]).1 (by decide)⟩,
    ⟨by decide, (c10_expand_path_ends GS5 [1, 3]).2 (by decide)⟩⟩

-- ------------------------------------------------------------
-- Claim C7
-- ------------------------------------------------------------

/-- Claim C7 counterexample: on the 52-link chain C7G, the shortcut (0, 60)
has via 1 outside {0, u, v}, yet expand_path([0,60]) differs from
expand_path([0,1]) ++ tail(expand_path([1,60])): the left side reaches the
depth cap 50 one level earlier than the right, truncating the expansion. -/
theorem c7_counterexample :
    C7G.find_shortcut_index 0 60 = 0 ∧
    (C7G.shortcuts.getD 0 default).via_edge = 1 ∧
    (1 : Nat) ≠ 0 ∧ (1 : Nat) ≠ 60 ∧
    C7G.expand_path [0, 60] ≠ C7G.expand_path [0, 1] ++ (C7G.expand_path [1, 60]).tail := by
  refine ⟨by decide, by decide, by decide, by decide, by decide⟩

/-- Claim C7 amended: for a shortcut (u, v) with via w outside {0, u, v},
expand_path([u,v]) equals expand_path([u,w]) concatenated with the tail of
expand_path([w,v]) provided both inner expansions are insensitive to the one
depth level the left side consumes first (in particular whenever no
expansion reaches the depth cap 50). -/
theorem c7_amended : ∀ (g : CSRGraph) (u v w i : Nat),
    g.find_shortcut_index u v = (i : Int) →
    i < g.shortcuts.length →
    (g.shortcuts.getD i default).via_edge = w →
    w ≠ 0 → w ≠ u → w ≠ v →
    g.expandAux u w 1 = g.expandAux u w 0 →
    g.expandAux w v 1 = g.expandAux w v 0 →
    g.expand_path [u, v] = g.expand_path [u, w] ++ (g.expand_path [w, v]).tail := by
  intro g u v w i hfind hlen hvia hw0 hwu hwv hins1 hins2
  rw [expand_path_pair, expand_path_pair, expand_path_pair]
  have hnot : ¬ (g.find_shortcut_index u v < 0 ∨
      (g.shortcuts.length : Int) ≤ g.find_shortcut_index u v) := by
    rw [hfind]
    push_neg
    constructor
    · positivity
    · exact_mod_cast hlen
  have htoNat : (g.find_shortcut_index u v).toNat = i := by rw [hfind]; simp
  have hvia2 : (g.shortcuts.getD (g.find_shortcut_index u v).toNat default).via_edge = w := by
    rw [htoNat, hvia]
  have hnotvia : ¬ ((g.shortcuts.getD (g.find_shortcut_index u v).toNat default).via_edge = u ∨
      (g.shortcuts.getD (g.find_shortcut_index u v).toNat default).via_edge = v ∨
      (g.shortcuts.getD (g.find_shortcut_index u v).toNat default).via_edge = 0) := by
    rw [hvia2]
    push_neg
    exact ⟨hwu, hwv, hw0⟩
  rw [expandAux_eq g u v 0]
  simp only [Nat.lt_irrefl, hnot, hnotvia, if_false, gt_iff_lt, Nat.not_lt_zero,
    Nat.zero_lt_succ]
  have hzero : ¬ ((0 : Nat) > 50) := by omega
  simp only [hzero, if_false, hvia2]
  rw [hins1, hins2]
  obtain ⟨t, ht⟩ := expandAux_cons g w v 0
  rw [ht]
  simp

/-- Witness for c7_amended: the S5 expansion scenario on GS5. -/
theorem c7_amended_witness :
    (GS5.find_shortcut_index 1 3 = (1 : Int) ∧
      GS5.expandAux 1 2 1 = GS5.expandAux 1 2 0 ∧
      GS5.expandAux 2 3 1 = GS5.expandAux 2 3 0) ∧
    GS5.expand_path [1, 3] = GS5.expand_path [1, 2] ++ (GS5.expand_path [2, 3]).tail :=
  ⟨⟨by decide, by decide, by decide⟩,
    c7_amended GS5 1 3 2 1 (by decide) (by decide) (by decide) (by decide) (by decide)
      (by decide) (by decide) (by decide)⟩

-- ------------------------------------------------------------
-- H3 arithmetic lemmas (claim C9)
-- ------------------------------------------------------------

/-- The resolution field of any cell is below 16. -/
theorem resField_lt_16 (c : Nat) : h3_utils.resField c < 16 :=
  Nat.mod_lt _ (by norm_num)

/-- The tail of libCellToParent (kept digits plus the all-ones filler) stays
below the resolution field. -/
theorem rawTail_lt (c r : Nat) :
    c % 2 ^ 52 / 2 ^ h3_utils.digitBits r * 2 ^ h3_utils.digitBits r +
      (2 ^ h3_utils.digitBits r - 1) < 2 ^ 52 := by
  set k := h3_utils.digitBits r with hk
  have hk45 : k ≤ 45 := by rw [hk]; unfold h3_utils.digitBits; omega
  have hkpos : 0 < (2 : Nat) ^ k := by positivity
  have h1 : c % 2 ^ 52 < 2 ^ 52 := Nat.mod_lt _ (by positivity)
  have h2 : c % 2 ^ 52 / 2 ^ k < 2 ^ (52 - k) := by
    rw [Nat.div_lt_iff_lt_mul hkpos]
    calc c % 2 ^ 52 < 2 ^ 52 := h1
    _ = 2 ^ (52 - k) * 2 ^ k := by rw [← pow_add]; congr 1; omega
  have h3 : (c % 2 ^ 52 / 2 ^ k + 1) * 2 ^ k ≤ 2 ^ (52 - k) * 2 ^ k :=
    Nat.mul_le_mul_right _ (by omega)
  have h4 : (2 : Nat) ^ (52 - k) * 2 ^ k = 2 ^ 52 := by rw [← pow_add]; congr 1; omega
  have h5 : (c % 2 ^ 52 / 2 ^ k + 1) * 2 ^ k =
      c % 2 ^ 52 / 2 ^ k * 2 ^ k + 2 ^ k := by ring
  omega

/-- The resolution field of a libCellToParent result is the target
resolution. -/
theorem resField_raw (c r : Nat) (hr : r ≤ 15) :
    h3_utils.resField (h3_utils.libCellToParent c r) = r := by
  unfold h3_utils.resField h3_utils.libCellToParent
  set k := h3_utils.digitBits r with hk
  set t := c % 2 ^ 52 / 2 ^ k * 2 ^ k + (2 ^ k - 1) with ht
  have htlt : t < 2 ^ 52 := rawTail_lt c r
  have hsplit : c / 2 ^ 56 * 2 ^ 56 + r * 2 ^ 52 +
      c % 2 ^ 52 / 2 ^ k * 2 ^ k + (2 ^ k - 1) =
      2 ^ 52 * (c / 2 ^ 56 * 16 + r) + t := by rw [ht]; ring
  rw [hsplit, Nat.mul_add_div (by positivity), Nat.div_eq_of_lt htlt, Nat.add_zero]
  omega

/-- Composing libCellToParent truncations equals the direct truncation. -/
theorem raw_raw (c m m2 : Nat) (hm2 : m2 ≤ m) (hm : m ≤ 15) :
    h3_utils.libCellToParent (h3_utils.libCellToParent c m) m2 =
      h3_utils.libCellToParent c m2 := by
  have hkk : h3_utils.digitBits m ≤ h3_utils.digitBits m2 := by
    unfold h3_utils.digitBits; omega
  set k := h3_utils.digitBits m with hk
  set k2 := h3_utils.digitBits m2 with hk2
  set A := c / 2 ^ 56 with hA
  set B := c % 2 ^ 52 / 2 ^ k with hB
  set t := B * 2 ^ k + (2 ^ k - 1) with ht
  have htlt : t < 2 ^ 52 := rawTail_lt c m
  have hxval : h3_utils.libCellToParent c m = A * 2 ^ 56 + m * 2 ^ 52 + t := by
    unfold h3_utils.libCellToParent
    rw [ht, hB, hA, hk]
    ring
  have hm52 : m * 2 ^ 52 + t < 2 ^ 56 := by
    have h1 : m * 2 ^ 52 ≤ 15 * 2 ^ 52 := Nat.mul_le_mul_right _ hm
    have h2 : (15 : Nat) * 2 ^ 52 + 2 ^ 52 = 2 ^ 56 := by norm_num
    omega
  have hdivhi : h3_utils.libCellToParent c m / 2 ^ 56 = A := by
    rw [hxval, show A * 2 ^ 56 + m * 2 ^ 52 + t = 2 ^ 56 * A + (m * 2 ^ 52 + t) by ring,
      Nat.mul_add_div (by positivity), Nat.div_eq_of_lt hm52, Nat.add_zero]
  have hmod : h3_utils.libCellToParent c m % 2 ^ 52 = t := by
    rw [hxval, show A * 2 ^ 56 + m * 2 ^ 52 + t = 2 ^ 52 * (A * 16 + m) + t by ring,
      Nat.mul_add_mod, Nat.mod_eq_of_lt htlt]
  have ht_div : t / 2 ^ k = B := by
    have hkpos : 0 < (2 : Nat) ^ k := by positivity
    rw [ht, show B * 2 ^ k + (2 ^ k - 1) = 2 ^ k * B + (2 ^ k - 1) by ring,
      Nat.mul_add_div hkpos, Nat.div_eq_of_lt (by omega), Nat.add_zero]
  have hsplitk : (2 : Nat) ^ k2 = 2 ^ k * 2 ^ (k2 - k) := by rw [← pow_add]; congr 1; omega
  have hdivlow : t / 2 ^ k2 = c % 2 ^ 52 / 2 ^ k2 := by
    rw [hsplitk, ← Nat.div_div_eq_div_mul, ht_div, ← Nat.div_div_eq_div_mul, ← hB]
  have hlhs : h3_utils.libCellToParent (h3_utils.libCellToParent c m) m2 =
      h3_utils.libCellToParent c m / 2 ^ 56 * 2 ^ 56 + m2 * 2 ^ 52 +
        h3_utils.libCellToParent c m % 2 ^ 52 / 2 ^ k2 * 2 ^ k2 + (2 ^ k2 - 1) := by
    rw [hk2]
    rfl
  rw [hlhs, hdivhi, hmod, hdivlow]
  unfold h3_utils.libCellToParent
  rw [hA, hk2]

/-- libCellToParent is nonzero below resolution 15 (the all-ones filler is
positive). -/
theorem raw_ne_zero (c r : Nat) (hr : r ≤ 14) : h3_utils.libCellToParent c r ≠ 0 := by
  have hk : 3 ≤ h3_utils.digitBits r := by unfold h3_utils.digitBits; omega
  have h8 : (8 : Nat) ≤ 2 ^ h3_utils.digitBits r := by
    calc (8 : Nat) = 2 ^ 3 := by norm_num
    _ ≤ 2 ^ h3_utils.digitBits r := Nat.pow_le_pow_right (by norm_num) hk
  unfold h3_utils.libCellToParent
  omega

/-- cell_to_parent at a resolution strictly below the cell's is the library
truncation. -/
theorem ctp_eq_of_lt (c m : Nat) (hc : c ≠ 0) (hm : m < h3_utils.resField c) :
    h3_utils.cell_to_parent c (m : Int) = h3_utils.libCellToParent c m := by
  unfold h3_utils.cell_to_parent
  rw [if_neg (by push_neg; exact ⟨hc, by positivity⟩), if_neg (by exact_mod_cast Nat.not_le.mpr hm)]
  simp

/-- cell_to_parent at or above the cell's resolution is the identity. -/
theorem ctp_eq_self (c m : Nat) (hc : c ≠ 0) (hm : h3_utils.resField c ≤ m) :
    h3_utils.cell_to_parent c (m : Int) = c := by
  unfold h3_utils.cell_to_parent
  rw [if_neg (by push_neg; exact ⟨hc, by positivity⟩), if_pos (by exact_mod_cast hm)]

/-- cell_to_parent never returns 0 on a nonzero cell at a resolution at most
the cell's. -/
theorem ctp_ne_zero (c m : Nat) (hc : c ≠ 0) (_hm : m ≤ h3_utils.resField c) :
    h3_utils.cell_to_parent c (m : Int) ≠ 0 := by
  rcases Nat.lt_or_ge m (h3_utils.resField c) with h | h
  · rw [ctp_eq_of_lt c m hc h]
    have := resField_lt_16 c
    exact raw_ne_zero c m (by omega)
  · rw [ctp_eq_self c m hc h]
    exact hc

/-- Composing cell_to_parent truncations (wrapper level). -/
theorem ctp_ctp (c m m2 : Nat) (hc : c ≠ 0) (hm2 : m2 ≤ m)
    (hm : m ≤ h3_utils.resField c) :
    h3_utils.cell_to_parent (h3_utils.cell_to_parent c (m : Int)) (m2 : Int) =
      h3_utils.cell_to_parent c (m2 : Int) := by
  have h16 := resField_lt_16 c
  rcases Nat.lt_or_ge m (h3_utils.resField c) with h | h
  · rw [ctp_eq_of_lt c m hc h]
    have hraw0 : h3_utils.libCellToParent c m ≠ 0 := raw_ne_zero c m (by omega)
    have hrawres : h3_utils.resField (h3_utils.libCellToParent c m) = m :=
      resField_raw c m (by omega)
    rcases Nat.lt_or_ge m2 m with h2 | h2
    · rw [ctp_eq_of_lt _ m2 hraw0 (by rw [hrawres]; exact h2),
        raw_raw c m m2 (Nat.le_of_lt h2) (by omega), ctp_eq_of_lt c m2 hc (by omega)]
    · have : m2 = m := Nat.le_antisymm hm2 h2
      subst this
      rw [ctp_eq_self _ m2 hraw0 (by rw [hrawres]), ctp_eq_of_lt c m2 hc h]
  · have : m = h3_utils.resField c := Nat.le_antisymm hm h
    rw [ctp_eq_self c m hc h]

/-- parent_check accepts any truncation of a nonzero cell to a resolution at
most its own. -/
theorem ctp_parent_check (c m : Nat) (hc : c ≠ 0) (hm : m ≤ h3_utils.resField c) :
    h3_utils.parent_check c (h3_utils.cell_to_parent c (m : Int))
      (h3_utils.get_resolution (h3_utils.cell_to_parent c (m : Int))) = true := by
  have h16 := resField_lt_16 c
  rcases Nat.lt_or_ge m (h3_utils.resField c) with h | h
  · have hraw0 : h3_utils.libCellToParent c m ≠ 0 := raw_ne_zero c m (by omega)
    have hrawres : h3_utils.resField (h3_utils.libCellToParent c m) = m :=
      resField_raw c m (by omega)
    rw [ctp_eq_of_lt c m hc h]
    unfold h3_utils.parent_check h3_utils.get_resolution
    rw [if_neg hraw0, if_neg (by push_neg; exact ⟨hraw0, by positivity⟩), if_neg hc,
      if_neg (by rw [hrawres]; exact_mod_cast Nat.not_lt.mpr (Nat.le_of_lt h)), hrawres,
      ctp_eq_of_lt c m hc h]
    simp
  · have hmr : m = h3_utils.resField c := Nat.le_antisymm hm h
    rw [ctp_eq_self c m hc h]
    unfold h3_utils.parent_check h3_utils.get_resolution
    rw [if_neg hc, if_neg (by push_neg; exact ⟨hc, by positivity⟩), if_neg hc,
      if_neg (by omega), ctp_eq_self c _ hc (Nat.le_refl _)]
    simp

/-- The find_lca loop keeps the first component a cell_to_parent truncation
of its first original argument. -/
theorem lcaLoop_fst (c : Nat) (hc : c ≠ 0) : ∀ (m c1 c2 : Nat),
    m ≤ h3_utils.resField c → c1 = h3_utils.cell_to_parent c (m : Int) →
    ∃ m2, m2 ≤ m ∧ (h3_utils.lcaLoop c1 c2 m).1 = h3_utils.cell_to_parent c (m2 : Int) := by
  intro m
  induction m with
  | zero =>
    intro c1 c2 hm h1
    exact ⟨0, Nat.le_refl _, by simpa [h3_utils.lcaLoop] using h1⟩
  | succ n ih =>
    intro c1 c2 hm h1
    by_cases he : c1 = c2
    · exact ⟨n + 1, Nat.le_refl _, by simpa [h3_utils.lcaLoop, he] using h1⟩
    · have hstep : h3_utils.cell_to_parent c1 (n : Int) =
          h3_utils.cell_to_parent c (n : Int) := by
        rw [h1]
        exact ctp_ctp c (n + 1) n hc (by omega) hm
      obtain ⟨m2, hm2, hres⟩ := ih (h3_utils.cell_to_parent c1 (n : Int))
        (h3_utils.cell_to_parent c2 (n : Int)) (by omega) hstep
      refine ⟨m2, by omega, ?_⟩
      simpa [h3_utils.lcaLoop, he] using hres

-- ------------------------------------------------------------
-- Claim C9
-- ------------------------------------------------------------

/-- Claim C9: for nonzero cells c and c2, parent_check of c against the LCA
of c and c2, at the LCA's resolution, returns true; and cell_to_parent of a
nonzero cell at its own resolution is the identity. -/
theorem c9_h3_laws : ∀ (c c2 : Nat), c ≠ 0 → c2 ≠ 0 →
    h3_utils.parent_check c (h3_utils.find_lca c c2)
      (h3_utils.get_resolution (h3_utils.find_lca c c2)) = true ∧
    h3_utils.cell_to_parent c (h3_utils.get_resolution c) = c := by
  intro c c2 hc hc2
  constructor
  · unfold h3_utils.find_lca
    rw [if_neg (by push_neg; exact ⟨hc, hc2⟩)]
    dsimp only
    set res1 := h3_utils.resField c with hres1
    set res2 := h3_utils.resField c2 with hres2
    set min_res := if res1 < res2 then res1 else res2 with hmin
    have hminle : min_res ≤ res1 := by rw [hmin]; split <;> omega
    have hc1 : (if res1 > min_res then h3_utils.cell_to_parent c (min_res : Int) else c) =
        h3_utils.cell_to_parent c (min_res : Int) := by
      split
      · rfl
      · have : min_res = res1 := by omega
        rw [this, ctp_eq_self c res1 hc (by rw [hres1])]
    rw [hc1]
    obtain ⟨m2, hm2, hfst⟩ := lcaLoop_fst c hc min_res
      (h3_utils.cell_to_parent c (min_res : Int))
      (if res2 > min_res then h3_utils.cell_to_parent c2 (min_res : Int) else c2)
      hminle rfl
    set p := h3_utils.lcaLoop (h3_utils.cell_to_parent c (min_res : Int))
      (if res2 > min_res then h3_utils.cell_to_parent c2 (min_res : Int) else c2) min_res
    by_cases heq : p.1 = p.2
    · rw [if_pos heq, hfst]
      exact ctp_parent_check c m2 hc (by omega)
    · rw [if_neg heq]
      unfold h3_utils.parent_check
      simp
  · unfold h3_utils.get_resolution
    rw [if_neg hc]
    exact ctp_eq_self c _ hc (Nat.le_refl _)

/-- Witness for c9_h3_laws on two resolution-1 cells. -/
theorem c9_witness :
    ((2 ^ 53 + 5 : Nat) ≠ 0 ∧ (2 ^ 53 + 9 : Nat) ≠ 0) ∧
    (h3_utils.parent_check (2 ^ 53 + 5) (h3_utils.find_lca (2 ^ 53 + 5) (2 ^ 53 + 9))
        (h3_utils.get_resolution (h3_utils.find_lca (2 ^ 53 + 5) (2 ^ 53 + 9))) = true ∧
      h3_utils.cell_to_parent (2 ^ 53 + 5) (h3_utils.get_resolution (2 ^ 53 + 5)) =
        2 ^ 53 + 5) :=
  ⟨⟨by positivity, by positivity⟩,
    c9_h3_laws (2 ^ 53 + 5) (2 ^ 53 + 9) (by positivity) (by positivity)⟩

-- ------------------------------------------------------------
-- Loader counting lemmas (claim C6)
-- ------------------------------------------------------------

/-- bumpAt preserves lengths. -/
theorem bumpAt_length (cnts : List Nat) (i : Nat) : (bumpAt cnts i).length = cnts.length := by
  simp [bumpAt]

/-- The counting fold adds the occurrence count to every in-range entry. -/
theorem foldl_bumpAt_getD (xs : List Nat) : ∀ (init : List Nat) (u : Nat), u < init.length →
    (xs.foldl bumpAt init).getD u 0 = init.getD u 0 + xs.countP (fun x => x = u) := by
  induction xs with
  | nil => intro init u hu; simp
  | cons x xs ih =>
    intro init u hu
    have hlen : u < (bumpAt init x).length := by rw [bumpAt_length]; exact hu
    have hset : (bumpAt init x).getD u 0 =
        if x = u then init.getD u 0 + 1 else init.getD u 0 := by
      unfold bumpAt
      rw [List.getD_eq_getElem _ _ (by simpa using hu :
        u < (init.set x (init.getD x 0 + 1)).length), List.getElem_set]
      split
      · rename_i hxu
        rw [hxu]
      · rw [List.getD_eq_getElem _ 0 hu]
    rw [List.foldl_cons, ih (bumpAt init x) u hlen, hset, List.countP_cons]
    by_cases hxu : x = u <;> simp [hxu] <;> omega

/-- countOcc length. -/
theorem countOcc_length (xs : List Nat) (len : Nat) : (countOcc xs len).length = len := by
  unfold countOcc
  have : ∀ (ys : List Nat) (init : List Nat), (ys.foldl bumpAt init).length = init.length := by
    intro ys
    induction ys with
    | nil => intro init; rfl
    | cons y ys ih => intro init; rw [List.foldl_cons, ih, bumpAt_length]
  rw [this, List.length_replicate]

/-- countOcc entries are occurrence counts. -/
theorem countOcc_getD (xs : List Nat) (len u : Nat) (hu : u < len) :
    (countOcc xs len).getD u 0 = xs.countP (fun x => x = u) := by
  unfold countOcc
  rw [foldl_bumpAt_getD xs _ u (by rw [List.length_replicate]; exact hu)]
  simp

/-- offsetsFromCounts length. -/
theorem offsetsFromCounts_length (counts : List Nat) : ∀ acc : Nat,
    (offsetsFromCounts counts acc).length = counts.length + 1 := by
  induction counts with
  | nil => intro acc; rfl
  | cons c rest ih => intro acc; simp [offsetsFromCounts, ih]

/-- offsetsFromCounts entries are partial sums shifted by the accumulator. -/
theorem offsetsFromCounts_getD (counts : List Nat) : ∀ (acc i : Nat), i ≤ counts.length →
    (offsetsFromCounts counts acc).getD i 0 = acc + (counts.take i).sum := by
  induction counts with
  | nil =>
    intro acc i hi
    have hi0 : i = 0 := by simpa using hi
    subst hi0
    simp [offsetsFromCounts]
  | cons c rest ih =>
    intro acc i hi
    match i with
    | 0 => simp [offsetsFromCounts]
    | j + 1 =>
      simp only [offsetsFromCounts, List.getD_cons_succ, List.take_succ_cons, List.sum_cons]
      rw [ih (acc + c) j (by simpa using hi)]
      omega

/-- Splitting a strict upper bound count at its predecessor. -/
theorem countP_lt_succ (xs : List Nat) (u : Nat) :
    xs.countP (fun x => x < u + 1) =
      xs.countP (fun x => x < u) + xs.countP (fun x => x = u) := by
  induction xs with
  | nil => simp
  | cons x xs ih =>
    simp only [List.countP_cons, ih, decide_eq_true_eq]
    split_ifs <;> omega

/-- Partial sums of countOcc count the elements below the cut. -/
theorem sum_take_countOcc (xs : List Nat) (len : Nat) : ∀ u, u ≤ len →
    ((countOcc xs len).take u).sum = xs.countP (fun x => x < u) := by
  intro u
  induction u with
  | zero =>
    intro _
    have : xs.countP (fun x => x < 0) = 0 := by
      rw [List.countP_eq_zero]
      simp
    simp [this]
  | succ n ih =>
    intro hn
    have hlen : n < (countOcc xs len).length := by rw [countOcc_length]; omega
    rw [List.take_succ, List.sum_append, ih (by omega), List.getElem?_eq_getElem hlen]
    simp only [Option.toList_some, List.sum_cons, List.sum_nil]
    rw [← List.getD_eq_getElem _ 0 hlen, countOcc_getD xs len n (by omega), countP_lt_succ]
    omega

/-- The max fold of load_shortcuts dominates its accumulator. -/
theorem le_foldlMax (l : List TempShortcut) : ∀ a : Nat,
    a ≤ l.foldl (fun m sc => max (max m sc.from_) sc.to_) a := by
  induction l with
  | nil => intro a; exact Nat.le_refl a
  | cons y ys ih =>
    intro a
    calc a ≤ max (max a y.from_) y.to_ :=
      Nat.le_trans (Nat.le_max_left _ _) (Nat.le_max_left _ _)
    _ ≤ ys.foldl (fun m sc => max (max m sc.from_) sc.to_) (max (max a y.from_) y.to_) := ih _

/-- Every endpoint is bounded by max_edge_id. -/
theorem loadMaxEdge_bound (l : List TempShortcut) : ∀ x ∈ l,
    x.from_ ≤ loadMaxEdge l ∧ x.to_ ≤ loadMaxEdge l := by
  have key : ∀ (ys : List TempShortcut) (a : Nat), ∀ x ∈ ys,
      x.from_ ≤ ys.foldl (fun m sc => max (max m sc.from_) sc.to_) a ∧
      x.to_ ≤ ys.foldl (fun m sc => max (max m sc.from_) sc.to_) a := by
    intro ys
    induction ys with
    | nil => intro a x hx; cases hx
    | cons y ys ih =>
      intro a x hx
      rcases List.mem_cons.mp hx with rfl | hx2
      · constructor
        · calc x.from_ ≤ max (max a x.from_) x.to_ :=
            Nat.le_trans (Nat.le_max_right _ _) (Nat.le_max_left _ _)
          _ ≤ _ := le_foldlMax ys _
        · calc x.to_ ≤ max (max a x.from_) x.to_ := Nat.le_max_right _ _
          _ ≤ _ := le_foldlMax ys _
      · exact ih _ x hx2
  exact key l 0

/-- Index bounds in a list sorted by from_: the i-th element is preceded by
at least all strictly smaller keys and followed only by keys at least its
own. -/
theorem sorted_index_bounds (l : List TempShortcut)
    (hs : List.Pairwise (fun a b => a.from_ ≤ b.from_) l) :
    ∀ i, i < l.length →
    l.countP (fun x => x.from_ < (l.getD i default).from_) ≤ i ∧
    i < l.countP (fun x => x.from_ ≤ (l.getD i default).from_) := by
  have hpw := List.pairwise_iff_getElem.mp hs
  intro i hi
  constructor
  · have hsplit := List.countP_append
      (p := fun x => decide (x.from_ < (l.getD i default).from_)) (l.take i) (l.drop i)
    rw [List.take_append_drop] at hsplit
    have hdrop : (l.drop i).countP (fun x => x.from_ < (l.getD i default).from_) = 0 := by
      rw [List.countP_eq_zero]
      intro a ha
      obtain ⟨j, hj, hEq⟩ := List.mem_iff_getElem.mp ha
      have hij : i + j < l.length := by
        have h2 := hj
        rw [List.length_drop] at h2
        omega
      have hgl : a.from_ = (l[i + j]).from_ := by
        rw [← hEq]
        congr 1
        exact List.getElem_drop l
      have hle : (l.getD i default).from_ ≤ a.from_ := by
        rw [List.getD_eq_getElem _ _ hi, hgl]
        rcases Nat.eq_zero_or_pos j with rfl | hjpos
        · simp
        · exact hpw i (i + j) hi hij (by omega)
      simp only [decide_eq_true_eq]
      omega
    have htake : (l.take i).countP (fun x => x.from_ < (l.getD i default).from_) ≤ i := by
      calc (l.take i).countP _ ≤ (l.take i).length := List.countP_le_length _
      _ ≤ i := by rw [List.length_take]; omega
    omega
  · have hsplit := List.countP_append
      (p := fun x => decide (x.from_ ≤ (l.getD i default).from_)) (l.take (i + 1))
      (l.drop (i + 1))
    rw [List.take_append_drop] at hsplit
    have htake : (l.take (i + 1)).countP (fun x => x.from_ ≤ (l.getD i default).from_) =
        (l.take (i + 1)).length := by
      rw [List.countP_eq_length]
      intro a ha
      obtain ⟨j, hj, hEq⟩ := List.mem_iff_getElem.mp ha
      have hjlen : j < l.length := by
        have h2 := hj
        rw [List.length_take] at h2
        omega
      have hji : j ≤ i := by
        have h2 := hj
        rw [List.length_take] at h2
        omega
      have hgl : a.from_ = (l[j]).from_ := by
        rw [← hEq]
        congr 1
        exact List.getElem_take l
      simp only [decide_eq_true_eq]
      rw [hgl, List.getD_eq_getElem _ _ hi]
      rcases Nat.lt_or_ge j i with hlt | hge
      · exact hpw j i hjlen hi hlt
      · have hji2 : j = i := by omega
        subst hji2
        exact Nat.le_refl _
    have hlen : (l.take (i + 1)).length = i + 1 := by
      rw [List.length_take]
      omega
    have hle := List.countP_le_length
      (fun x => decide (x.from_ ≤ (l.getD i default).from_)) (l := l.drop (i + 1))
    omega

/-- Prefix sums are monotone in the cut. -/
theorem sum_take_mono (l : List Nat) (i j : Nat) (hij : i ≤ j) :
    (l.take i).sum ≤ (l.take j).sum := by
  have hsplit : l.take j = l.take i ++ (l.drop i).take (j - i) := by
    rw [← List.take_add]
    congr 1
    omega
  rw [hsplit, List.sum_append]
  omega

/-- getD after a point update, other position. -/
theorem getD_set_ne (l : List Nat) (p q x : Nat) (h : p ≠ q) :
    (l.set p x).getD q 0 = l.getD q 0 := by
  by_cases hq : q < l.length
  · rw [List.getD_eq_getElem _ _ (by simpa using hq), List.getElem_set, if_neg h,
      List.getD_eq_getElem _ _ hq]
  · rw [List.getD_eq_default _ _ (by simpa using Nat.le_of_not_lt hq),
      List.getD_eq_default _ _ (Nat.le_of_not_lt hq)]

/-- getD after a point update, updated position. -/
theorem getD_set_self (l : List Nat) (p x : Nat) (h : p < l.length) :
    (l.set p x).getD p 0 = x := by
  rw [List.getD_eq_getElem _ _ (by simpa using h), List.getElem_set, if_pos rfl]

/-- getD of dropLast agrees with the original away from the last entry. -/
theorem getD_dropLast (l : List Nat) (i : Nat) (h : i + 1 < l.length) :
    l.dropLast.getD i 0 = l.getD i 0 := by
  have hi : i < l.dropLast.length := by
    rw [List.length_dropLast]
    omega
  rw [List.getD_eq_getElem _ _ hi, List.getElem_dropLast,
    List.getD_eq_getElem _ _ (by omega)]

/-- Splitting a strict upper bound count at its predecessor, keyed version. -/
theorem countP_key_lt_succ {α : Type} (l : List α) (key : α → Nat) (u : Nat) :
    l.countP (fun x => key x < u + 1) =
      l.countP (fun x => key x < u) + l.countP (fun x => key x = u) := by
  induction l with
  | nil => simp
  | cons x xs ih =>
    simp only [List.countP_cons, ih, decide_eq_true_eq]
    split_ifs <;> omega

/-- The indices selected from an index range map back to the filtered
shortcut records. -/
theorem map_getD_filter_range (all : List CSRShortcut) (v : Nat) : ∀ n, n ≤ all.length →
    ((List.range n).filter (fun i => (all.getD i default).to_ = v)).map
        (fun k => all.getD k default) =
      (all.take n).filter (fun sc => sc.to_ = v) := by
  intro n
  induction n with
  | zero => intro _; simp
  | succ n ih =>
    intro hn
    have hlt : n < all.length := by omega
    rw [List.range_succ, List.filter_append, List.map_append, ih (by omega), List.take_succ,
      List.getElem?_eq_getElem hlt, List.filter_append]
    congr 1
    by_cases hv : (all.getD n default).to_ = v
    · have hv2 : all[n].to_ = v := by
        rw [← List.getD_eq_getElem _ default hlt]
        exact hv
      have hv3 : (all[n]?.getD default).to_ = v := by
        rw [List.getElem?_eq_getElem hlt, Option.getD_some]
        exact hv2
      simp [hv3, hv2, List.getElem?_eq_getElem hlt]
    · have hv2 : ¬ all[n].to_ = v := by
        rw [← List.getD_eq_getElem _ default hlt]
        exact hv
      have hv3 : ¬ (all[n]?.getD default).to_ = v := by
        rw [List.getElem?_eq_getElem hlt, Option.getD_some]
        exact hv2
      simp [hv3, hv2]

/-- Length of the selected index list equals the occurrence count. -/
theorem idxList_length (all : List CSRShortcut) (v n : Nat) (hn : n ≤ all.length) :
    ((List.range n).filter (fun i => (all.getD i default).to_ = v)).length =
      (all.take n).countP (fun sc => sc.to_ = v) := by
  have h := congrArg List.length (map_getD_filter_range all v n hn)
  rw [List.length_map] at h
  rw [h, List.countP_eq_length_filter]

/-- Invariant of the backward-index fill loop: after processing a prefix of
the shortcuts, each target's segment of the index array holds, in order,
exactly the indices of the processed shortcuts with that target; running the
loop to completion therefore fills every segment with the indices of the
shortcuts targeting it. -/
theorem fillLoop_spec (all : List CSRShortcut) (maxlen : Nat)
    (hto : ∀ sc ∈ all, sc.to_ < maxlen) :
    ∀ (rest : List CSRShortcut) (n : Nat), all.drop n = rest → n + rest.length = all.length →
    ∀ (pos idxs : List Nat),
    pos.length = maxlen →
    idxs.length = all.length →
    (∀ v, v < maxlen →
      pos.getD v 0 = all.countP (fun sc => sc.to_ < v) +
        (all.take n).countP (fun sc => sc.to_ = v)) →
    (∀ v, v < maxlen → ∀ j, j < (all.take n).countP (fun sc => sc.to_ = v) →
      idxs.getD (all.countP (fun sc => sc.to_ < v) + j) 0 =
        ((List.range n).filter (fun i => (all.getD i default).to_ = v)).getD j 0) →
    (((List.range' n rest.length).zip rest).foldl fillStep (pos, idxs)).2.length =
        all.length ∧
    (∀ v, v < maxlen → ∀ j, j < all.countP (fun sc => sc.to_ = v) →
      ((((List.range' n rest.length).zip rest).foldl fillStep (pos, idxs)).2).getD
          (all.countP (fun sc => sc.to_ < v) + j) 0 =
        ((List.range all.length).filter (fun i => (all.getD i default).to_ = v)).getD j 0) := by
  intro rest
  induction rest with
  | nil =>
    intro n hdrop hlen pos idxs hposlen hidxlen hpos hidx
    have hn : n = all.length := by
      simp only [List.length_nil] at hlen
      omega
    subst hn
    constructor
    · simpa using hidxlen
    · intro v hv j hj
      have h := hidx v hv j (by rwa [List.take_length])
      simpa [List.take_length] using h
  | cons a rest2 ih =>
    intro n hdrop hlen pos idxs hposlen hidxlen hpos hidx
    have hn : n < all.length := by
      simp only [List.length_cons] at hlen
      omega
    have hcons : all[n] :: all.drop (n + 1) = a :: rest2 := by
      rw [← List.drop_eq_getElem_cons hn]
      exact hdrop
    rw [List.cons.injEq] at hcons
    obtain ⟨ha, hdrop2⟩ := hcons
    have hmem : a ∈ all := by rw [← ha]; exact List.getElem_mem hn
    have htm : a.to_ < maxlen := hto a hmem
    have hton : (all.getD n default).to_ = a.to_ := by
      rw [List.getD_eq_getElem _ _ hn, ha]
    -- occurrence counts at the next step
    have htakeSucc : ∀ v, (all.take (n + 1)).countP (fun sc => sc.to_ = v) =
        (all.take n).countP (fun sc => sc.to_ = v) + (if a.to_ = v then 1 else 0) := by
      intro v
      rw [List.take_succ, List.getElem?_eq_getElem hn, List.countP_append]
      simp only [Option.toList_some, List.countP_cons, List.countP_nil, ha]
      by_cases h : a.to_ = v <;> simp [h]
    have hrangeSucc : ∀ v, (List.range (n + 1)).filter
          (fun i => (all.getD i default).to_ = v) =
        ((List.range n).filter (fun i => (all.getD i default).to_ = v)) ++
          (if a.to_ = v then [n] else []) := by
      intro v
      have hton2 : (all[n]?.getD default).to_ = a.to_ := by
        rw [List.getElem?_eq_getElem hn, Option.getD_some, ha]
      rw [List.range_succ, List.filter_append]
      congr 1
      by_cases h : a.to_ = v
      · simp [hton, hton2, h]
      · simp [hton, hton2, h]
    have hcntle : ∀ v, (all.take (n + 1)).countP (fun sc => sc.to_ = v) ≤
        all.countP (fun sc => sc.to_ = v) :=
      fun v => List.Sublist.countP_le _ (List.take_sublist _ _)
    have hofflt : ∀ v, v + 1 ≤ maxlen → all.countP (fun sc => sc.to_ < v) +
        all.countP (fun sc => sc.to_ = v) = all.countP (fun sc => sc.to_ < v + 1) :=
      fun v _ => (countP_key_lt_succ all (fun sc => sc.to_) v).symm
    have hoffmono : ∀ v w : Nat, v ≤ w → all.countP (fun sc => sc.to_ < v) ≤
        all.countP (fun sc => sc.to_ < w) := by
      intro v w hvw
      apply List.countP_mono_left
      intro x _ hx
      simp only [decide_eq_true_eq] at hx ⊢
      omega
    have hoffle : ∀ v, all.countP (fun sc => sc.to_ < v) ≤ all.length := by
      intro v
      exact List.countP_le_length _
    -- the write position is inside the target's segment and the array
    have hwrite_lt : all.countP (fun sc => sc.to_ < a.to_) +
        (all.take n).countP (fun sc => sc.to_ = a.to_) < all.length := by
      have h1 := htakeSucc a.to_
      rw [if_pos rfl] at h1
      have h2 := hcntle a.to_
      have h3 := hofflt a.to_ htm
      have h4 : all.countP (fun sc => sc.to_ < a.to_ + 1) ≤ all.length := hoffle _
      omega
    -- unfold one loop step
    simp only [List.length_cons, List.range'_succ, List.zip_cons_cons, List.foldl_cons]
    have hstep : fillStep (pos, idxs) (n, a) =
        (pos.set a.to_ (pos.getD a.to_ 0 + 1), idxs.set (pos.getD a.to_ 0) n) := rfl
    rw [hstep]
    -- apply the induction hypothesis to the updated state
    apply ih (n + 1) hdrop2 (by simp only [List.length_cons] at hlen; omega)
    · rw [List.length_set]
      exact hposlen
    · rw [List.length_set]
      exact hidxlen
    · -- cursor invariant
      intro v hv
      by_cases hvt : v = a.to_
      · subst hvt
        rw [getD_set_self pos a.to_ _ (by rw [hposlen]; exact hv), hpos a.to_ hv,
          htakeSucc a.to_, if_pos rfl]
        omega
      · rw [getD_set_ne pos a.to_ v _ (fun h => hvt h.symm), hpos v hv, htakeSucc v,
          if_neg (fun h => hvt h.symm)]
        omega
    · -- segment invariant
      intro v hv j hj
      by_cases hvt : v = a.to_
      · subst hvt
        rw [htakeSucc a.to_, if_pos rfl] at hj
        rw [hpos a.to_ hv]
        rcases Nat.lt_or_ge j ((all.take n).countP (fun sc => sc.to_ = a.to_)) with hjlt | hjge
        · -- previously written entry, untouched by this write
          rw [getD_set_ne idxs _ _ n (by omega), hidx a.to_ hv j hjlt, hrangeSucc a.to_,
            if_pos rfl, List.getD_append _ _ _ j
              (by rw [idxList_length all a.to_ n (by omega)]; exact hjlt)]
        · -- the entry written in this step
          have hjeq : j = (all.take n).countP (fun sc => sc.to_ = a.to_) := by omega
          subst hjeq
          rw [getD_set_self idxs _ n (by rw [hidxlen]; exact hwrite_lt), hrangeSucc a.to_,
            if_pos rfl, List.getD_append_right _ _ _ _
              (by rw [idxList_length all a.to_ n (by omega)]),
            idxList_length all a.to_ n (by omega)]
          simp
      · -- other targets: counts unchanged and the write lands outside
        rw [htakeSucc v, if_neg (fun h => hvt h.symm)] at hj
        have hdisj : all.countP (fun sc => sc.to_ < v) + j ≠
            all.countP (fun sc => sc.to_ < a.to_) +
              (all.take n).countP (fun sc => sc.to_ = a.to_) := by
          rcases Nat.lt_or_ge v a.to_ with hlt | hge
          · have h1 : all.countP (fun sc => sc.to_ < v) + j <
                all.countP (fun sc => sc.to_ < v + 1) := by
              have hsub : (all.take n).countP (fun sc => sc.to_ = v) ≤
                  all.countP (fun sc => sc.to_ = v) :=
                List.Sublist.countP_le _ (List.take_sublist _ _)
              have := hofflt v (by omega)
              omega
            have h2 := hoffmono (v + 1) a.to_ (by omega)
            omega
          · have hgt : a.to_ < v := by omega
            have h1 : all.countP (fun sc => sc.to_ < a.to_) +
                (all.take n).countP (fun sc => sc.to_ = a.to_) <
                all.countP (fun sc => sc.to_ < a.to_ + 1) := by
              have h2 := htakeSucc a.to_
              rw [if_pos rfl] at h2
              have h3 := hcntle a.to_
              have h4 := hofflt a.to_ htm
              omega
            have h2 := hoffmono (a.to_ + 1) v (by omega)
            omega
        rw [hpos a.to_ htm, getD_set_ne idxs _ _ n (fun h => hdisj h.symm),
          hidx v hv j hj, hrangeSucc v, if_neg (fun h => hvt h.symm), List.append_nil]

/-- A ≤-count against a key bound equals the <-count against its successor. -/
theorem countP_key_le_eq {α : Type} (l : List α) (key : α → Nat) (u : Nat) :
    l.countP (fun x => key x ≤ u) = l.countP (fun x => key x < u + 1) :=
  List.countP_congr (by
    intro x _
    simp [Nat.lt_succ_iff])

/-- Keyed strict-bound counts are monotone in the bound. -/
theorem countP_key_lt_mono {α : Type} (l : List α) (key : α → Nat) (u w : Nat) (huw : u ≤ w) :
    l.countP (fun x => key x < u) ≤ l.countP (fun x => key x < w) := by
  apply List.countP_mono_left
  intro x _ hx
  simp only [decide_eq_true_eq] at hx ⊢
  omega

/-- C6: after a successful load_shortcuts the CSR store is consistent: every
shortcut sits at an index inside its source's forward offset range, each
forward range contains only shortcuts with that source, for each target v
the bwd_offsets segment of bwd_indices lists exactly the shortcuts with
to_ = v (so in particular as a multiset), both offset arrays are
monotonically non-decreasing, and their final entries equal the number of
shortcuts. -/
theorem c6_csr_invariants : ∀ (l : List TempShortcut) (g : CSRGraph),
    load_shortcuts l = some g →
    (∀ i, i < g.shortcuts.length →
      g.fwd_offsets.getD (g.shortcuts.getD i default).from_ 0 ≤ i ∧
      i < g.fwd_offsets.getD ((g.shortcuts.getD i default).from_ + 1) 0) ∧
    (∀ u i, u ≤ g.max_edge_id → g.fwd_offsets.getD u 0 ≤ i →
      i < g.fwd_offsets.getD (u + 1) 0 → (g.shortcuts.getD i default).from_ = u) ∧
    (∀ v, v ≤ g.max_edge_id →
      ((g.bwd_indices.drop (g.bwd_offsets.getD v 0)).take
          (g.bwd_offsets.getD (v + 1) 0 - g.bwd_offsets.getD v 0)).map
        (fun k => g.shortcuts.getD k default) =
      g.shortcuts.filter (fun sc => sc.to_ = v)) ∧
    (∀ i j, i ≤ j → j ≤ g.max_edge_id + 1 →
      g.fwd_offsets.getD i 0 ≤ g.fwd_offsets.getD j 0 ∧
      g.bwd_offsets.getD i 0 ≤ g.bwd_offsets.getD j 0) ∧
    g.fwd_offsets.getD (g.max_edge_id + 1) 0 = g.shortcuts.length ∧
    g.bwd_offsets.getD (g.max_edge_id + 1) 0 = g.shortcuts.length := by
  intro l g hload
  by_cases hl : l = []
  · rw [hl] at hload
    simp [load_shortcuts] at hload
  · unfold load_shortcuts at hload
    rw [if_neg hl] at hload
    obtain rfl := Option.some.inj hload
    dsimp only
    clear hload
    set M := loadMaxEdge l with hMdef
    set sorted := List.insertionSort (fun a b : TempShortcut => a.from_ ≤ b.from_) l
      with hsdef
    set S := List.map tempToShortcut sorted with hSdef
    set F := offsetsFromCounts (countOcc (List.map (fun t => t.from_) sorted) (M + 1)) 0
      with hFdef
    set B := offsetsFromCounts (countOcc (List.map (fun sc => sc.to_) S) (M + 1)) 0
      with hBdef
    set bidx := fillBwd S B with hIdef
    have hperm : sorted.Perm l := by
      rw [hsdef]
      exact List.perm_insertionSort _ l
    have hslen : sorted.length = l.length := hperm.length_eq
    have hsmem : ∀ x ∈ sorted, x.from_ ≤ M ∧ x.to_ ≤ M := by
      intro x hx
      exact loadMaxEdge_bound l x (hperm.mem_iff.mp hx)
    have hsort : sorted.Pairwise (fun a b => a.from_ ≤ b.from_) := by
      rw [hsdef]
      exact @List.sorted_insertionSort TempShortcut (fun a b => a.from_ ≤ b.from_) _
        ⟨fun a b => Nat.le_total a.from_ b.from_⟩ ⟨fun a b c => Nat.le_trans⟩ l
    have hSlen : S.length = sorted.length := by
      rw [hSdef, List.length_map]
    have hSget : ∀ (i : Nat), i < sorted.length →
        S.getD i default = tempToShortcut (sorted.getD i default) := by
      intro i hi
      have hiS : i < S.length := by rw [hSlen]; exact hi
      rw [List.getD_eq_getElem _ _ hiS, List.getD_eq_getElem _ _ hi]
      exact List.getElem_map tempToShortcut
    have hcountsLen : (countOcc (List.map (fun t => t.from_) sorted) (M + 1)).length =
        M + 1 := countOcc_length _ _
    have hbcountsLen : (countOcc (List.map (fun sc => sc.to_) S) (M + 1)).length =
        M + 1 := countOcc_length _ _
    have hFget : ∀ u, u ≤ M + 1 → F.getD u 0 = sorted.countP (fun x => x.from_ < u) := by
      intro u hu
      rw [hFdef, offsetsFromCounts_getD _ 0 u (by rw [hcountsLen]; exact hu),
        sum_take_countOcc _ (M + 1) u hu, List.countP_map, Nat.zero_add]
      rfl
    have hBget : ∀ v, v ≤ M + 1 → B.getD v 0 = S.countP (fun sc => sc.to_ < v) := by
      intro v hv
      rw [hBdef, offsetsFromCounts_getD _ 0 v (by rw [hbcountsLen]; exact hv),
        sum_take_countOcc _ (M + 1) v hv, List.countP_map, Nat.zero_add]
      rfl
    have hStoM : ∀ sc ∈ S, sc.to_ ≤ M := by
      intro sc hsc
      rw [hSdef] at hsc
      obtain ⟨x, hx, rfl⟩ := List.mem_map.mp hsc
      exact (hsmem x hx).2
    have inv1a : ∀ i, i < S.length →
        F.getD (S.getD i default).from_ 0 ≤ i ∧
        i < F.getD ((S.getD i default).from_ + 1) 0 := by
      intro i hi
      have hi2 : i < sorted.length := by rwa [hSlen] at hi
      have hkey : (S.getD i default).from_ = (sorted.getD i default).from_ := by
        rw [hSget i hi2]
        rfl
      have hmem2 : sorted.getD i default ∈ sorted := by
        rw [List.getD_eq_getElem _ _ hi2]
        exact List.getElem_mem _
      have hkeyM : (sorted.getD i default).from_ ≤ M := (hsmem _ hmem2).1
      obtain ⟨hb1, hb2⟩ := sorted_index_bounds sorted hsort i hi2
      constructor
      · rw [hkey, hFget _ (by omega)]
        exact hb1
      · rw [hkey, hFget _ (by omega)]
        calc i < sorted.countP (fun x => x.from_ ≤ (sorted.getD i default).from_) := hb2
          _ = sorted.countP (fun x => x.from_ < (sorted.getD i default).from_ + 1) :=
            countP_key_le_eq sorted (fun x => x.from_) _
    have inv1b : ∀ u i, u ≤ M → F.getD u 0 ≤ i → i < F.getD (u + 1) 0 →
        (S.getD i default).from_ = u := by
      intro u i hu h1 h2
      have hi : i < S.length := by
        have hle : F.getD (u + 1) 0 ≤ sorted.length := by
          rw [hFget _ (by omega)]
          exact List.countP_le_length _
        rw [hSlen]
        omega
      have hi2 : i < sorted.length := by rwa [hSlen] at hi
      have hkey : (S.getD i default).from_ = (sorted.getD i default).from_ := by
        rw [hSget i hi2]
        rfl
      obtain ⟨hb1, hb2⟩ := sorted_index_bounds sorted hsort i hi2
      rw [hFget _ (by omega)] at h1
      rw [hFget _ (by omega)] at h2
      rw [hkey]
      rcases Nat.lt_trichotomy (sorted.getD i default).from_ u with hlt | heq | hgt
      · exfalso
        have hmono : sorted.countP (fun x => x.from_ ≤ (sorted.getD i default).from_) ≤
            sorted.countP (fun x => x.from_ < u) := by
          apply List.countP_mono_left
          intro x _ hx
          simp only [decide_eq_true_eq] at hx ⊢
          omega
        omega
      · exact heq
      · exfalso
        have hmono : sorted.countP (fun x => x.from_ < u + 1) ≤
            sorted.countP (fun x => x.from_ < (sorted.getD i default).from_) := by
          apply List.countP_mono_left
          intro x _ hx
          simp only [decide_eq_true_eq] at hx ⊢
          omega
        omega
    have hFmono : ∀ i j, i ≤ j → j ≤ M + 1 → F.getD i 0 ≤ F.getD j 0 := by
      intro i j hij hj
      rw [hFget i (by omega), hFget j hj]
      exact countP_key_lt_mono sorted (fun x => x.from_) i j hij
    have hBmono : ∀ i j, i ≤ j → j ≤ M + 1 → B.getD i 0 ≤ B.getD j 0 := by
      intro i j hij hj
      rw [hBget i (by omega), hBget j hj]
      exact countP_key_lt_mono S (fun sc => sc.to_) i j hij
    have hFfin : F.getD (M + 1) 0 = S.length := by
      rw [hFget _ (Nat.le_refl _), hSlen]
      exact List.countP_eq_length.mpr (by
        intro x hx
        simp only [decide_eq_true_eq]
        have := (hsmem x hx).1
        omega)
    have hBfin : B.getD (M + 1) 0 = S.length := by
      rw [hBget _ (Nat.le_refl _)]
      exact List.countP_eq_length.mpr (by
        intro sc hsc
        simp only [decide_eq_true_eq]
        have := hStoM sc hsc
        omega)
    have hto : ∀ sc ∈ S, sc.to_ < M + 1 := fun sc h => Nat.lt_succ_of_le (hStoM sc h)
    have hBlen : B.length = M + 2 := by
      rw [hBdef, offsetsFromCounts_length, hbcountsLen]
    have hfill := fillLoop_spec S (M + 1) hto S 0 rfl (by omega)
      B.dropLast (List.replicate S.length 0)
      (by rw [List.length_dropLast, hBlen]; omega)
      (by rw [List.length_replicate])
      (by
        intro v hv
        rw [getD_dropLast B v (by rw [hBlen]; omega), hBget v (by omega)]
        simp)
      (by
        intro v hv j hj
        simp at hj)
    have hIfold : bidx = (((List.range' 0 S.length).zip S).foldl fillStep
        (B.dropLast, List.replicate S.length 0)).2 := by
      rw [hIdef]
      unfold fillBwd
      rw [List.range_eq_range']
    obtain ⟨hIlen, hIget⟩ := hfill
    rw [← hIfold] at hIlen hIget
    have inv2 : ∀ v, v ≤ M →
        ((bidx.drop (B.getD v 0)).take (B.getD (v + 1) 0 - B.getD v 0)).map
          (fun k => S.getD k default) = S.filter (fun sc => sc.to_ = v) := by
      intro v hv
      have ho : B.getD v 0 = S.countP (fun sc => sc.to_ < v) := hBget v (by omega)
      have hc : B.getD (v + 1) 0 = S.countP (fun sc => sc.to_ < v) +
          S.countP (fun sc => sc.to_ = v) := by
        rw [hBget (v + 1) (by omega)]
        exact countP_key_lt_succ S (fun sc => sc.to_) v
      have hoc : S.countP (fun sc => sc.to_ < v) + S.countP (fun sc => sc.to_ = v) ≤
          S.length := by
        rw [← countP_key_lt_succ S (fun sc => sc.to_) v]
        exact List.countP_le_length _
      have hseg : (bidx.drop (B.getD v 0)).take (B.getD (v + 1) 0 - B.getD v 0) =
          (List.range S.length).filter (fun i => (S.getD i default).to_ = v) := by
        apply List.ext_getElem
        · rw [List.length_take, List.length_drop, hIlen, ho, hc,
            idxList_length S v S.length (Nat.le_refl _), List.take_length]
          omega
        · intro j h1 h2
          have hjc : j < S.countP (fun sc => sc.to_ = v) := by
            rw [idxList_length S v S.length (Nat.le_refl _), List.take_length] at h2
            exact h2
          have hoj : B.getD v 0 + j < bidx.length := by
            rw [hIlen, ho]
            omega
          calc ((bidx.drop (B.getD v 0)).take (B.getD (v + 1) 0 - B.getD v 0))[j]
              = bidx[B.getD v 0 + j] := by
                simp only [List.getElem_take, List.getElem_drop]
            _ = bidx.getD (B.getD v 0 + j) 0 := (List.getD_eq_getElem _ _ hoj).symm
            _ = bidx.getD (S.countP (fun sc => sc.to_ < v) + j) 0 := by rw [ho]
            _ = ((List.range S.length).filter
                  (fun i => (S.getD i default).to_ = v)).getD j 0 :=
                hIget v (by omega) j hjc
            _ = ((List.range S.length).filter
                  (fun i => (S.getD i default).to_ = v))[j] :=
                List.getD_eq_getElem _ _ h2
      rw [hseg, map_getD_filter_range S v S.length (Nat.le_refl _), List.take_length]
    exact ⟨inv1a, inv1b, inv2,
      fun i j hij hj => ⟨hFmono i j hij hj, hBmono i j hij hj⟩, hFfin, hBfin⟩

/-- Witness for C6: loading the concrete row list L6 succeeds, and the
invariants theorem applied there gives that the final forward offset equals
the number of loaded shortcuts. -/
theorem c6_csr_invariants_witness :
    load_shortcuts L6 = some GL6 ∧
      GL6.fwd_offsets.getD (GL6.max_edge_id + 1) 0 = GL6.shortcuts.length :=
  ⟨rfl, (c6_csr_invariants L6 GL6 rfl).2.2.2.2.1⟩

-- ------------------------------------------------------------
-- Claim C2
-- ------------------------------------------------------------

/-- Claim C2 counterexample: on Gc5, query_classic (a classic bidirectional
variant) returns a reachable result with path [1,2] and distance 15, while
edge_cost(path[0]) plus the sum of the shortcut costs along consecutive
path pairs is 2 + 10 = 12, so the claimed classic formula does not hold. -/
theorem c2_counterexample :
    ¬ ((Gc5.query_classic 1 2).distance =
        Gc5.get_edge_cost 1 + Gc5.pathShortcutSum (Gc5.query_classic 1 2).path) := by
  decide

/-- C2 (amended): on the two-shortcut climb route G4 a b c w1 w2 (edge
costs a, b, c and shortcut costs w1, w2 symbolic; c, w1, w2 positive and
w1 at most c), classic, pruned, full bidirectional and plain Dijkstra all
return the reachable result with path [1,2,3] and distance w1 + w2 + c,
which equals the sum of the shortcut costs along consecutive path pairs
plus edge_cost(target); it differs from edge_cost(path[0]) plus that sum
whenever a is not c. -/
theorem c2_amended : ∀ a b c w1 w2 : ℚ, 0 < c → 0 < w1 → 0 < w2 → w1 ≤ c →
    ((G4 a b c w1 w2).query_classic 1 3 = ⟨w1 + w2 + c, [1, 2, 3], true, ""⟩ ∧
     (G4 a b c w1 w2).query_pruned 1 3 = ⟨w1 + w2 + c, [1, 2, 3], true, ""⟩ ∧
     (G4 a b c w1 w2).query_bidijkstra 1 3 = ⟨w1 + w2 + c, [1, 2, 3], true, ""⟩ ∧
     (G4 a b c w1 w2).query_dijkstra 1 3 = ⟨w1 + w2 + c, [1, 2, 3], true, ""⟩) ∧
    (G4 a b c w1 w2).pathShortcutSum [1, 2, 3] + (G4 a b c w1 w2).get_edge_cost 3 =
      w1 + w2 + c ∧
    (a ≠ c →
      (G4 a b c w1 w2).get_edge_cost 1 + (G4 a b c w1 w2).pathShortcutSum [1, 2, 3] ≠
        w1 + w2 + c) := by
  intro a b c w1 w2 hc hw1 hw2 hw1c
  have h1 : ¬(w1 + w2 + c ≤ w1 + w2) := by linarith
  have h2 : ¬(w1 + w2 + c ≤ c) := by linarith
  have h3 : (0:ℚ) ≤ c := le_of_lt hc
  refine ⟨⟨?_, ?_, ?_, ?_⟩, ?_, ?_⟩
  · simp [CSRGraph.query_classic, queryFuel, classicLoop, classicInit, classicBody,
      classicFwdStep, classicBwdStep, classicRelaxFwd, classicRelaxBwd, classicFwdAllowed,
      classicBwdAllowed, classicResult, traceParent, traceParentAfter,
      CSRGraph.get_fwd_range, CSRGraph.get_bwd_range, CSRGraph.get_edge_cost,
      CSRGraph.get_edge_meta, CSRGraph.is_valid_edge, G4, mkMeta,
      pqPush, updFun, geBest, ltBest, List.range', h1, h2]
  · simp [CSRGraph.query_pruned, queryFuel, prunedLoop, prunedInit, prunedBody,
      prunedFwdStep, prunedBwdStep, prunedRelaxFwd, prunedRelaxBwd, prunedFwdAllowed,
      prunedBwdAllowed, CSRGraph.compute_high_cell, CSRShortcut.get_res,
      h3_utils.get_resolution, h3_utils.resField, classicResult, traceParent,
      traceParentAfter, CSRGraph.get_fwd_range, CSRGraph.get_bwd_range,
      CSRGraph.get_edge_cost, CSRGraph.get_edge_meta, CSRGraph.is_valid_edge, G4, mkMeta,
      pqPush, updFun, geBest, ltBest, optMin, addLt, List.range', h1, h2]
  · simp [CSRGraph.query_bidijkstra, queryFuel, bidijkstraLoop, bidijkstraInit,
      bidijkstraStep, bidijkstraRelaxFwd, bidijkstraRelaxBwd, traceParent,
      traceParentAfter, CSRGraph.get_fwd_range, CSRGraph.get_bwd_range,
      CSRGraph.get_edge_cost, CSRGraph.get_edge_meta, CSRGraph.is_valid_edge, G4, mkMeta,
      pqPush, updFun, geBest, ltBest, List.range', h1, h2, h3, hw1c]
  · simp [CSRGraph.query_dijkstra, queryFuel, dijkstraLoop, dijkstraRelax, dijkstraTrace,
      CSRGraph.get_fwd_range, CSRGraph.get_bwd_range, CSRGraph.get_edge_cost,
      CSRGraph.get_edge_meta, CSRGraph.is_valid_edge, G4, mkMeta,
      pqPush, updFun, geBest, ltBest, List.range', h1]
  · simp [CSRGraph.pathShortcutSum, CSRGraph.find_shortcut_index, CSRGraph.get_fwd_range,
      CSRGraph.is_valid_edge, CSRGraph.get_edge_cost, G4, mkMeta, List.range']
  · intro hac
    simp [CSRGraph.pathShortcutSum, CSRGraph.find_shortcut_index, CSRGraph.get_fwd_range,
      CSRGraph.is_valid_edge, CSRGraph.get_edge_cost, G4, mkMeta, List.range']
    intro h
    exact hac (by linarith)

/-- Witness for C2 (amended) at a = 2, b = 1, c = 5, w1 = 3, w2 = 4: all
hypotheses hold and query_classic on the instantiated route returns
distance 3 + 4 + 5 with path [1,2,3]. -/
theorem c2_amended_witness :
    ((0:ℚ) < 5 ∧ (0:ℚ) < 3 ∧ (0:ℚ) < 4 ∧ (3:ℚ) ≤ 5) ∧
      (G4 2 1 5 3 4).query_classic 1 3 = ⟨3 + 4 + 5, [1, 2, 3], true, ""⟩ :=
  ⟨⟨by norm_num, by norm_num, by norm_num, by norm_num⟩,
    (c2_amended 2 1 5 3 4 (by norm_num) (by norm_num) (by norm_num) (by norm_num)).1.1⟩
